import Mathlib

/-!
Verification of the argument-expansion core of fish-shell (src/src/expand.cpp)
against its natural-language specification.

Wide strings (C++ wcstring) are modelled as lists of naturals (code points).
The sentinel alphabet lives in a private block of code points; the concrete
values come from the repository headers which are not part of the sample, so
we fix a block of distinct noncharacter code points, as the spec requires.
All recursion is fuel-based so every definition computes by kernel reduction.
-/

namespace FishExpand

/-- Convert a Lean string to a wide string, for concrete test inputs. -/
def str (s : String) : List Nat := s.toList.map Char.toNat

/-! ### Sentinel alphabet.
Modelled from the spec: the sentinel constants are declared in common.h /
expand.h / wildcard.h, which are not in the sample; the spec requires a
private block of distinct code points outside plausible user input. -/

def VARIABLE_EXPAND : Nat := 0xFDD0
def VARIABLE_EXPAND_SINGLE : Nat := 0xFDD1
def VARIABLE_EXPAND_EMPTY : Nat := 0xFDD2
def BRACE_BEGIN : Nat := 0xFDD3
def BRACE_END : Nat := 0xFDD4
def BRACE_SEP : Nat := 0xFDD5
def BRACE_SPACE : Nat := 0xFDD6
def INTERNAL_SEPARATOR : Nat := 0xFDD7
def PROCESS_EXPAND_SELF : Nat := 0xFDD8
def HOME_DIRECTORY : Nat := 0xFDD9
def ANY_CHAR : Nat := 0xFDDA
def ANY_STRING : Nat := 0xFDDB
def ANY_STRING_RECURSIVE : Nat := 0xFDDC

/-- All reserved in-band markers of the expansion core. -/
def sentinelChar (c : Nat) : Bool :=
  c = VARIABLE_EXPAND || c = VARIABLE_EXPAND_SINGLE || c = VARIABLE_EXPAND_EMPTY ||
  c = BRACE_BEGIN || c = BRACE_END || c = BRACE_SEP || c = BRACE_SPACE ||
  c = INTERNAL_SEPARATOR || c = PROCESS_EXPAND_SELF || c = HOME_DIRECTORY ||
  c = ANY_CHAR || c = ANY_STRING || c = ANY_STRING_RECURSIVE

def noSentinels (s : List Nat) : Bool := s.all (fun c => !sentinelChar c)

/-! ### Character helpers -/

def isSpaceW (c : Nat) : Bool :=
  c = 32 || c = 9 || c = 10 || c = 11 || c = 12 || c = 13

def isDigitW (c : Nat) : Bool := decide (48 ≤ c) && decide (c ≤ 57)

/-- Character of a wide string at an index, 0 (the NUL terminator) past the end. -/
def nthc (s : List Nat) (i : Nat) : Nat := s.getD i 0

/-- Collaborator valid_var_name_char (parse_util): alphanumeric or underscore.
Modelled from the spec: restricted to ASCII alphanumerics. -/
def validVarNameChar (c : Nat) : Bool :=
  isDigitW c || (decide (65 ≤ c) && decide (c ≤ 90)) ||
  (decide (97 ≤ c) && decide (c ≤ 122)) || c = 95

def SOURCE_LOCATION_UNKNOWN : Nat := 18446744073709551615
def STATUS_READ_TOO_MUCH : Int := 122
def LONG_MAX : Int := 9223372036854775807
def LONG_MIN : Int := -9223372036854775808

/-! ### Data model: results, completions, errors, flags -/

inductive ExpandResult
  | ok
  | wildcardNoMatch
  | wildcardMatch
  | error
deriving DecidableEq, Repr

inductive ErrCode
  | syntaxErr
  | cmdsubstErr
deriving DecidableEq, Repr

/-- Error messages, as tags for the formatted texts of expand.cpp. -/
inductive ErrText
  | zeroIndex          -- "array indices start at 1, not 0."
  | invalidIndex       -- "Invalid index value"
  | emptyVarName       -- parse_util_expand_variable_error
  | mismatchedBraces   -- "Mismatched braces"
  | mismatchedParens   -- "Mismatched parenthesis"
  | cmdsubstNotAllowed -- "Command substitutions not allowed"
  | cmdsubstFailed     -- "Unknown error while evaluating command substitution"
  | readTooMuch        -- "Too much data emitted by command substitution ..."
deriving DecidableEq, Repr

structure ParseErrorT where
  sourceStart : Nat
  code : ErrCode
  text : ErrText
deriving DecidableEq, Repr

structure CompletionT where
  completion : List Nat
  replacesToken : Bool
  dontEscapeTildes : Bool
deriving DecidableEq, Repr

/-- Completion with default flags, as append_completion produces. -/
def mkComp (s : List Nat) : CompletionT := ⟨s, false, false⟩

structure ExpandFlags where
  forCompletions : Bool
  skipCmdsubst : Bool
  skipVariables : Bool
  skipWildcards : Bool
  skipHomeDirectories : Bool
  skipJobs : Bool
  executablesOnly : Bool
  noDescriptions : Bool
  specialForCd : Bool
  specialForCommand : Bool
deriving DecidableEq, Repr

def flagsNone : ExpandFlags :=
  ⟨false, false, false, false, false, false, false, false, false, false⟩

/-! ### External collaborators (spec section 6), as an injected environment -/

structure EnvVarT where
  values : List (List Nat)
  delimiter : Nat
deriving DecidableEq, Repr

/-- History collaborator: get_history list, items_at_indexes map, size. -/
structure HistoryT where
  items : List (List Nat)
  itemsAt : Int → Option (List Nat)
  size : Nat

structure Environment where
  get : List Nat → Option EnvVarT
  pwdSlash : List Nat
  history : Option HistoryT
  userHome : List Nat → Option (List Nat)
  execSub : List Nat → Option (List (List Nat)) × Int
  wildcardEx : List Nat → List Nat → Int × List CompletionT
  pid : Nat

/-! ### parse_slice (expand.cpp lines 148-241) -/

/-- Collaborator fish_wcstol / wcstol: skip whitespace, optional sign, decimal
digits; errno greater than zero (no digits, or out of long range) is a
failure. Returns the value and the index one past the last digit. -/
def parseLong (s : List Nat) (pos : Nat) : Option (Int × Nat) :=
  let rest := s.drop pos
  let ws := rest.takeWhile isSpaceW
  let afterWs := rest.drop ws.length
  let signLen : Nat := if nthc afterWs 0 = 45 || nthc afterWs 0 = 43 then 1 else 0
  let digits := (afterWs.drop signLen).takeWhile isDigitW
  if digits.isEmpty then none
  else
    let magnitude : Nat := digits.foldl (fun acc c => acc * 10 + (c - 48)) 0
    let value : Int := if nthc afterWs 0 = 45 then -(magnitude : Int) else (magnitude : Int)
    if value < LONG_MIN || LONG_MAX < value then none
    else some (value, pos + ws.length + signLen + digits.length)

def upSeq (a : Int) (n : Nat) : List Int := (List.range n).map (fun k => a + k)

/-- The index sequence the range loop of parse_slice generates:
from i1 while jjj * direction ≤ i2 * direction, stepping by direction.
The direction argument is always 1 or -1 at call sites. -/
def rangeSeq (i1 i2 dir : Int) : List Int :=
  if dir = 1 then (if i1 ≤ i2 then upSeq i1 ((i2 - i1).toNat + 1) else [])
  else (if i2 ≤ i1 then (upSeq 0 ((i1 - i2).toNat + 1)).map (fun k => i1 - k) else [])

/-- One pass of the parse_slice token loop. State: position, accumulated
indices, the position of the last token starting with a literal 0, and the
flag recording that every token so far was a literal zero. Fuel: the
position strictly advances every iteration, so length + 2 always suffices. -/
def sliceLoop (s : List Nat) (size : Int) :
    Nat → Nat → List Int → Option Nat → Bool → Except Nat (List Int × Nat)
  | 0, pos, _, _, _ => Except.error pos
  | fuel+1, pos, idx, zeroIdx, literalZero =>
    let pos := pos + ((s.drop pos).takeWhile
        (fun c => isSpaceW c || c = INTERNAL_SEPARATOR)).length
    if nthc s pos = 93 then
      if literalZero then
        match zeroIdx with
        | some z => Except.error z
        | none => Except.ok (idx, pos + 1)
      else Except.ok (idx, pos + 1)
    else
      let zeroIdx := if literalZero && nthc s pos = 48 then some pos else zeroIdx
      let literalZero := literalZero && nthc s pos = 48
      match parseLong s pos with
      | none => Except.error pos
      | some (tmp, posEnd) =>
        let i1 : Int := if tmp > -1 then tmp else size + tmp + 1
        let pos := posEnd + ((s.drop posEnd).takeWhile (fun c => c = INTERNAL_SEPARATOR)).length
        if nthc s pos = 46 && nthc s (pos + 1) = 46 then
          let pos := pos + 2
          let pos := pos + ((s.drop pos).takeWhile (fun c => c = INTERNAL_SEPARATOR)).length
          match parseLong s pos with
          | none => Except.error pos
          | some (tmp1, posEnd1) =>
            let i2 : Int := if tmp1 > -1 then tmp1 else size + tmp1 + 1
            if i1 > size && i2 > size then
              sliceLoop s size fuel posEnd1 idx zeroIdx literalZero
            else
              let sameSign : Bool := decide (tmp1 > -1) = decide (tmp > -1)
              let direction : Int :=
                if !sameSign then (if tmp1 > -1 then -1 else 1)
                else (if i2 < i1 then -1 else 1)
              let i1c := if sameSign then (if i1 < size then i1 else size) else i1
              let i2c := if sameSign then (if i2 < size then i2 else size) else i2
              sliceLoop s size fuel posEnd1 (idx ++ rangeSeq i1c i2c direction)
                zeroIdx literalZero
        else
          let literalZero := literalZero && tmp = 0
          sliceLoop s size fuel pos (idx ++ [i1]) zeroIdx literalZero

/-- parse_slice: parse an array slicing specification starting at the opening
square bracket. On success returns the indices and the offset one past the
closing bracket; on a parse error returns the offset of the bad token. -/
def parseSlice (s : List Nat) (arraySize : Nat) : Except Nat (List Int × Nat) :=
  sliceLoop s (arraySize : Int) (s.length + 2) 1 [] none true

/-! ### expand_variables (expand.cpp lines 243-452) -/

def strHistory : List Nat := str "history"

def joinStrings (xs : List (List Nat)) (sep : Nat) : List Nat := List.intercalate [sep] xs

/-- Locate the last VARIABLE_EXPAND or VARIABLE_EXPAND_SINGLE strictly below
the given index, together with whether it is the quoted-single marker. -/
def findVarexp (s : List Nat) : Nat → Option (Nat × Bool)
  | 0 => none
  | i+1 =>
    if nthc s i = VARIABLE_EXPAND then some (i, false)
    else if nthc s i = VARIABLE_EXPAND_SINGLE then some (i, true)
    else findVarexp s i

/-- Length of the variable name read from the head of the list: a run of
valid name characters, or a terminating VARIABLE_EXPAND_EMPTY consumed as an
empty-name marker. -/
def nameLen : List Nat → Nat
  | [] => 0
  | c :: rest =>
    if c = VARIABLE_EXPAND_EMPTY then 1
    else if validVarNameChar c then 1 + nameLen rest
    else 0

/-- Select the sliced elements of a variable value list: 1-based indices,
out-of-bounds indices silently skipped. -/
def selectIndices (vals : List (List Nat)) (idxs : List Int) : List (List Nat) :=
  idxs.filterMap (fun i =>
    if 1 ≤ i && i ≤ (vals.length : Int) then some (vals.getD ((i - 1).toNat) []) else none)

/-- Select history items at the given indices via the items_at_indexes map,
skipping missing entries. -/
def selectHistory (h : HistoryT) (idxs : List Int) : List (List Nat) :=
  idxs.filterMap h.itemsAt

/-- The body of expand_variables: operates backwards starting at lastIdx.
Returns the success flag, the completions appended (in order) and the errors
appended. Fuel: each recursive call uses a strictly smaller lastIdx, so any
fuel above lastIdx suffices; the top-level wrapper supplies lastIdx + 1. -/
def expandVarsF (env : Environment) :
    Nat → List Nat → Nat → Bool × List (List Nat) × List ParseErrorT
  | 0, _, _ => (false, [], [])
  | fuel+1, instr, lastIdx =>
    if lastIdx = 0 then (true, [instr], [])
    else
      match findVarexp instr lastIdx with
      | none => (true, [instr], [])
      | some (vidx, isSingle) =>
        let nameStart := vidx + 1
        let nlen := nameLen (instr.drop nameStart)
        if nlen = 0 then
          (false, [], [⟨vidx, ErrCode.syntaxErr, ErrText.emptyVarName⟩])
        else
          let varName := (instr.drop nameStart).take nlen
          let nameStop := nameStart + nlen
          let history : Option HistoryT :=
            if varName = strHistory then env.history else none
          let mvar : Option EnvVarT :=
            if varName = strHistory || varName = [VARIABLE_EXPAND_EMPTY] then none
            else env.get varName
          -- Parse out any following slice.
          let sliceRes : Except ParseErrorT (Option (List Int) × Nat) :=
            if nameStop < instr.length && nthc instr nameStop = 91 then
              let effectiveValCount : Nat :=
                match mvar with
                | some v => v.values.length
                | none => match history with
                  | some h => h.size
                  | none => 1
              match parseSlice (instr.drop nameStop) effectiveValCount with
              | Except.error badPos =>
                Except.error ⟨nameStop + badPos, ErrCode.syntaxErr,
                  if nthc instr (nameStop + badPos) = 48 then ErrText.zeroIndex
                  else ErrText.invalidIndex⟩
              | Except.ok (idxs, stop) => Except.ok (some idxs, nameStop + stop)
            else Except.ok (none, nameStop)
          match sliceRes with
          | Except.error e => (false, [], [e])
          | Except.ok (slice, sliceStop) =>
            match mvar, history with
            | none, none =>
              -- Expanding a non-existent variable.
              if !isSingle then (true, [], [])
              else
                let res := instr.take vidx
                let res := if res ≠ [] && res.getLast? = some VARIABLE_EXPAND_SINGLE
                  then res ++ [VARIABLE_EXPAND_EMPTY] else res
                let res := res ++ instr.drop sliceStop
                expandVarsF env fuel res vidx
            | _, _ =>
              let varItemList : List (List Nat) :=
                match slice with
                | none =>
                  match history with
                  | some h => h.items
                  | none => match mvar with
                    | some v => v.values
                    | none => []
                | some idxs =>
                  match history with
                  | some h => selectHistory h idxs
                  | none => match mvar with
                    | some v => selectIndices v.values idxs
                    | none => []
              if isSingle then
                let delimit : Nat :=
                  match history with
                  | some _ => 32
                  | none => match mvar with
                    | some v => v.delimiter
                    | none => 32
                let res := instr.take vidx
                let res :=
                  if res ≠ [] then
                    if res.getLast? ≠ some VARIABLE_EXPAND_SINGLE then
                      res ++ [INTERNAL_SEPARATOR]
                    else if varItemList.headD [] = [] then
                      res ++ [VARIABLE_EXPAND_EMPTY]
                    else res
                  else res
                let res := res ++ joinStrings varItemList delimit ++ instr.drop sliceStop
                expandVarsF env fuel res vidx
              else
                -- Normal cartesian-product expansion.
                let step := fun (acc : Bool × List (List Nat) × List ParseErrorT) (item : List Nat) =>
                  match acc with
                  | (false, outs, errs) => (false, outs, errs)
                  | (true, outs, errs) =>
                    if vidx = 0 && sliceStop = instr.length then
                      (true, outs ++ [item], errs)
                    else
                      let newIn := instr.take vidx
                      let newIn :=
                        if newIn ≠ [] then
                          if newIn.getLast? ≠ some VARIABLE_EXPAND then
                            newIn ++ [INTERNAL_SEPARATOR]
                          else if item = [] then newIn ++ [VARIABLE_EXPAND_EMPTY]
                          else newIn
                        else newIn
                      let newIn := newIn ++ item ++ instr.drop sliceStop
                      match expandVarsF env fuel newIn vidx with
                      | (ok, outs2, errs2) => (ok, outs ++ outs2, errs ++ errs2)
                varItemList.foldl step (true, [], [])

/-- expand_variables on a whole string: process with last_idx one past the
end, per the source comment. -/
def expandVariables (env : Environment) (instr : List Nat) :
    Bool × List (List Nat) × List ParseErrorT :=
  expandVarsF env (instr.length + 1) instr instr.length

/-! ### expand_braces (expand.cpp lines 454-562) -/

structure BraceScanSt where
  count : Int
  bbegin : Option Nat
  bend : Option Nat
  lastSep : Option Nat
  synErr : Bool
deriving DecidableEq, Repr

/-- Locate the first non-nested brace pair: the scan loop of expand_braces.
Stops early when the count goes negative (syntax error), like the loop
condition of the source. -/
def braceScanGo : List Nat → Nat → BraceScanSt → BraceScanSt
  | [], _, st => st
  | c :: rest, pos, st =>
    if st.synErr then st
    else
      let st :=
        if c = BRACE_BEGIN then
          { st with bbegin := if st.count = 0 then some pos else st.bbegin,
                    count := st.count + 1 }
        else if c = BRACE_END then
          let cnt := st.count - 1
          { st with count := cnt,
                    synErr := cnt < 0,
                    bend := if cnt = 0 then some pos else st.bend }
        else if c = BRACE_SEP then
          { st with lastSep := if st.count = 1 then some pos else st.lastSep }
        else st
      braceScanGo rest (pos + 1) st

def braceScan (s : List Nat) : BraceScanSt :=
  braceScanGo s 0 ⟨0, none, none, none, false⟩

/-- Split the inside of a brace group at depth-0 BRACE_SEP characters.
The brace count starts at zero (reusing the variable, as the source does)
and the separator test precedes the count update for the character. -/
def splitBraceItems : List Nat → Int → List Nat → List (List Nat)
  | [], _, cur => [cur]
  | c :: rest, depth, cur =>
    if depth = 0 && c = BRACE_SEP then cur :: splitBraceItems rest 0 []
    else
      let depth := depth + (if c = BRACE_BEGIN then 1 else 0)
                         - (if c = BRACE_END then 1 else 0)
      splitBraceItems rest depth (cur ++ [c])

/-- Trim BRACE_SPACE from both margins of an item, then convert the internal
BRACE_SPACE characters to literal spaces. -/
def braceItemText (item : List Nat) : List Nat :=
  (((item.dropWhile (fun c => c = BRACE_SPACE)).reverse.dropWhile
      (fun c => c = BRACE_SPACE)).reverse).map
    (fun c => if c = BRACE_SPACE then 32 else c)

/-- The string expand_braces synthesizes for an unclosed brace group in
completion mode: the prefix up to and including the opening brace, the text
after the last depth-1 separator if one exists (otherwise the whole input),
and a closing brace. -/
def synthClosed (s : List Nat) (st : BraceScanSt) : List Nat :=
  match st.lastSep with
  | some ls => s.take ((st.bbegin.getD 0) + 1) ++ s.drop (ls + 1) ++ [BRACE_END]
  | none => s ++ [BRACE_END]

/-- Flags value used by the unclosed-brace completion retry: only
skip_cmdsubst, the caller's other flags are dropped. -/
def flagsSkipCmdsubstOnly : ExpandFlags :=
  ⟨false, true, false, false, false, false, false, false, false, false⟩

/-- Body of expand_braces. Returns the stage result, the completions
appended, and the errors appended. Results of the recursive per-item calls
are ignored, as in the source; their errors accumulate. Fuel: recursive
per-item calls strictly shrink the string and the completion retry turns
for_completions off, so length plus three always suffices. -/
def expandBracesF (flags : ExpandFlags) :
    Nat → List Nat → ExpandResult × List (List Nat) × List ParseErrorT
  | 0, _ => (ExpandResult.error, [], [])
  | fuel+1, instr =>
    let st := braceScan instr
    if st.count > 0 && flags.forCompletions then
      expandBracesF flagsSkipCmdsubstOnly fuel (synthClosed instr st)
    else if st.synErr || st.count > 0 then
      (ExpandResult.error, [],
        [⟨SOURCE_LOCATION_UNKNOWN, ErrCode.syntaxErr, ErrText.mismatchedBraces⟩])
    else
      match st.bbegin with
      | none => (ExpandResult.ok, [instr], [])
      | some bb =>
        let be := st.bend.getD instr.length
        let inside := (instr.drop (bb + 1)).take (be - bb - 1)
        let items := splitBraceItems inside 0 []
        let step := fun (acc : List (List Nat) × List ParseErrorT) (item : List Nat) =>
          let whole := instr.take bb ++ braceItemText item ++ instr.drop (be + 1)
          match expandBracesF flags fuel whole with
          | (_, outs, errs) => (acc.1 ++ outs, acc.2 ++ errs)
        let (outs, errs) := items.foldl step ([], [])
        (ExpandResult.ok, outs, errs)

def expandBraces (instr : List Nat) (flags : ExpandFlags) :
    ExpandResult × List (List Nat) × List ParseErrorT :=
  expandBracesF flags (instr.length + 3) instr

/-! ### Unescape (variable stage phase one).
Modelled from the spec: unescape_string with UNESCAPE_SPECIAL and
UNESCAPE_INCOMPLETE lives in common.cpp, which is not in the sample. Per the
spec it is a reversible conversion from user syntax to sentinel form:
dollar to VARIABLE_EXPAND (VARIABLE_EXPAND_SINGLE inside double quotes),
tilde at position 0 to HOME_DIRECTORY, percent-self at position 0 to
PROCESS_EXPAND_SELF, wildcards to wildcard sentinels, braces to brace
sentinels (comma and space only inside an open brace group), quotes removed,
backslash escapes resolved, incomplete trailing constructs tolerated. -/

inductive QuoteMode
  | unquoted
  | singleQ
  | doubleQ
deriving DecidableEq, Repr

/-- Escape-sequence resolution for an unquoted backslash: the common control
escapes become control characters, anything else becomes the literal
character. Modelled from the spec. -/
def backslashChar (c : Nat) : Nat :=
  if c = 110 then 10        -- n
  else if c = 116 then 9    -- t
  else if c = 114 then 13   -- r
  else if c = 97 then 7     -- a
  else if c = 98 then 8     -- b
  else if c = 101 then 27   -- e
  else if c = 102 then 12   -- f
  else if c = 118 then 11   -- v
  else c

/-- One step of the unescape scan: what the current character (with its
lookahead, position, quote mode and open-brace count) emits, how many input
characters it consumes, and the next mode and brace count. Modelled from the
spec. -/
def unescStep (c : Nat) (rest : List Nat) (pos : Nat) (mode : QuoteMode) (bc : Nat) :
    List Nat × Nat × QuoteMode × Nat :=
  match mode with
  | QuoteMode.singleQ =>
    if c = 39 then ([], 1, QuoteMode.unquoted, bc)
    else if c = 92 then
      match rest with
      | d :: _ =>
        if d = 92 || d = 39 then ([d], 2, mode, bc)
        else ([92], 1, mode, bc)
      | [] => ([92], 1, mode, bc)
    else ([c], 1, mode, bc)
  | QuoteMode.doubleQ =>
    if c = 34 then ([], 1, QuoteMode.unquoted, bc)
    else if c = 36 then ([VARIABLE_EXPAND_SINGLE], 1, mode, bc)
    else if c = 92 then
      match rest with
      | d :: _ =>
        if d = 92 || d = 34 || d = 36 then ([d], 2, mode, bc)
        else ([92], 1, mode, bc)
      | [] => ([92], 1, mode, bc)
    else ([c], 1, mode, bc)
  | QuoteMode.unquoted =>
    if c = 92 then
      match rest with
      | d :: _ => ([backslashChar d], 2, mode, bc)
      | [] => ([], 1, mode, bc)
    else if c = 39 then ([], 1, QuoteMode.singleQ, bc)
    else if c = 34 then ([], 1, QuoteMode.doubleQ, bc)
    else if c = 36 then ([VARIABLE_EXPAND], 1, mode, bc)
    else if c = 42 then
      match rest with
      | 42 :: _ => ([ANY_STRING_RECURSIVE], 2, mode, bc)
      | _ => ([ANY_STRING], 1, mode, bc)
    else if c = 63 then ([ANY_CHAR], 1, mode, bc)
    else if c = 123 then ([BRACE_BEGIN], 1, mode, bc + 1)
    else if c = 125 then ([BRACE_END], 1, mode, bc - 1)
    else if c = 44 && bc > 0 then ([BRACE_SEP], 1, mode, bc)
    else if c = 32 && bc > 0 then ([BRACE_SPACE], 1, mode, bc)
    else if c = 126 && pos = 0 then ([HOME_DIRECTORY], 1, mode, bc)
    else if c = 37 && pos = 0 && rest.take 4 = str "self" then
      ([PROCESS_EXPAND_SELF], 5, mode, bc)
    else ([c], 1, mode, bc)

/-- The unescape scan: apply the step until the input or the fuel runs out.
A step consuming k characters drops k-1 of the lookahead. Modelled from the
spec. -/
def unescGo : Nat → List Nat → Nat → QuoteMode → Nat → List Nat
  | 0, _, _, _, _ => []
  | _, [], _, _, _ => []
  | fuel+1, c :: rest, pos, mode, bc =>
    match unescStep c rest pos mode bc with
    | (em, consumed, mode2, bc2) =>
      em ++ unescGo fuel (rest.drop (consumed - 1)) (pos + consumed) mode2 bc2

def unescapeSpecial (input : List Nat) : List Nat :=
  unescGo (input.length + 1) input 0 QuoteMode.unquoted 0

/-! ### Command-substitution locator.
Modelled from the spec: parse_util_locate_cmdsubst is a routine of the lexer
collaborator (parse_util.cpp, not in the sample). It locates the first
top-level parenthesis pair, honouring backslash escapes and quotes; it
reports not-found when no substitution is present and mismatched on an
unbalanced parenthesis (an unterminated one is tolerated only when
accept_incomplete is set). -/

inductive LocateRes
  | notFound
  | mismatched
  | found (b e : Nat)
deriving DecidableEq, Repr

def locGo : Nat → List Nat → Nat → QuoteMode → Option Nat → Int → Bool → LocateRes
  | 0, _, _, _, _, _, _ => LocateRes.mismatched
  | _, [], _, _, first, depth, accept =>
    match first with
    | none => LocateRes.notFound
    | some b => if depth > 0 && accept then LocateRes.found b 0 else LocateRes.mismatched
  | fuel+1, c :: rest, pos, mode, first, depth, accept =>
    if c = 92 then
      match rest with
      | _ :: rest2 => locGo fuel rest2 (pos + 2) mode first depth accept
      | [] => locGo fuel [] (pos + 1) mode first depth accept
    else
      match mode with
      | QuoteMode.singleQ =>
        locGo fuel rest (pos + 1) (if c = 39 then QuoteMode.unquoted else mode)
          first depth accept
      | QuoteMode.doubleQ =>
        locGo fuel rest (pos + 1) (if c = 34 then QuoteMode.unquoted else mode)
          first depth accept
      | QuoteMode.unquoted =>
        if c = 39 then locGo fuel rest (pos + 1) QuoteMode.singleQ first depth accept
        else if c = 34 then locGo fuel rest (pos + 1) QuoteMode.doubleQ first depth accept
        else if c = 40 then
          let first := if depth = 0 then some pos else first
          locGo fuel rest (pos + 1) mode first (depth + 1) accept
        else if c = 41 then
          if depth = 0 then LocateRes.mismatched
          else if depth = 1 then
            match first with
            | some b => LocateRes.found b pos
            | none => LocateRes.mismatched
          else locGo fuel rest (pos + 1) mode first (depth - 1) accept
        else locGo fuel rest (pos + 1) mode first depth accept

def locateCmdsubst (s : List Nat) (accept : Bool) : LocateRes :=
  locGo (s.length + 1) s 0 QuoteMode.unquoted none 0 accept

/-- Collaborator escape_string with mode 1. Modelled from the spec: a simple
single-character backslash escape preserving round-trippability through the
subsequent unescape stage. -/
def escapeStr (s : List Nat) : List Nat :=
  s.foldr (fun c acc =>
    if c = 92 || c = 34 || c = 39 || c = 36 || c = 42 || c = 63 || c = 40 || c = 41 ||
       c = 123 || c = 125 || c = 44 || c = 32 || c = 126 || c = 37 || c = 91 || c = 93
    then 92 :: c :: acc else c :: acc) []

/-! ### expand_cmdsubst (expand.cpp lines 564-676) -/

/-- Body of expand_cmdsubst. The recursive tail call's boolean result is
ignored, as in the source; its completions and errors are kept. Errors are
deduplicated by text for cmdsubst errors by append_cmdsub_error; the
deduplication acts on the per-call error list here. Fuel: the tail is a
strict suffix beginning after the closing parenthesis, so length plus one
suffices. -/
def expandCmdsubstF (env : Environment) :
    Nat → List Nat → Bool × List (List Nat) × List ParseErrorT
  | 0, _ => (false, [], [])
  | fuel+1, input =>
    match locateCmdsubst input false with
    | LocateRes.mismatched =>
      (false, [], [⟨SOURCE_LOCATION_UNKNOWN, ErrCode.syntaxErr, ErrText.mismatchedParens⟩])
    | LocateRes.notFound => (true, [input], [])
    | LocateRes.found pbegin pend =>
      let subcmd := (input.drop (pbegin + 1)).take (pend - pbegin - 1)
      match env.execSub subcmd with
      | (none, _) =>
        (false, [], [⟨SOURCE_LOCATION_UNKNOWN, ErrCode.cmdsubstErr, ErrText.cmdsubstFailed⟩])
      | (some subRes, lastStatus) =>
        if lastStatus = STATUS_READ_TOO_MUCH then
          -- The source computes the offset as in minus paren_begin, with the
          -- operands reversed; as size_t arithmetic that wraps.
          (false, [], [⟨(18446744073709551616 - pbegin) % 18446744073709551616,
            ErrCode.cmdsubstErr, ErrText.readTooMuch⟩])
        else
          let sliced : Except ParseErrorT (List (List Nat) × Nat) :=
            if nthc input (pend + 1) = 91 then
              match parseSlice (input.drop (pend + 1)) subRes.length with
              | Except.error badPos =>
                Except.error ⟨pend + 1 + badPos, ErrCode.syntaxErr, ErrText.invalidIndex⟩
              | Except.ok (idxs, stop) =>
                Except.ok (selectIndices subRes idxs, pend + 1 + stop)
            else Except.ok (subRes, pend + 1)
          match sliced with
          | Except.error e => (false, [], [e])
          | Except.ok (subRes, tailBegin) =>
            match expandCmdsubstF env fuel (input.drop tailBegin) with
            | (_, tailExpand, tailErrs) =>
              let outs := subRes.foldl (fun acc subItem =>
                acc ++ tailExpand.map (fun tailItem =>
                  input.take pbegin ++ [INTERNAL_SEPARATOR] ++ escapeStr subItem ++
                  [INTERNAL_SEPARATOR] ++ tailItem)) []
              (true, outs, tailErrs)

def expandCmdsubst (env : Environment) (input : List Nat) :
    Bool × List (List Nat) × List ParseErrorT :=
  expandCmdsubstF env (input.length + 1) input

/-! ### Home / percent-self stage (expand.cpp lines 678-749) -/

/-- get_home_directory_name: the username between the leading marker and the
first slash (empty for a bare tilde), plus the index of the tail. -/
def homeDirectoryName (input : List Nat) : List Nat × Nat :=
  match input.findIdx? (fun c => c = 47) with
  | some p => ((input.drop 1).take (p - 1), p)
  | none => (input.drop 1, input.length)

/-- Collaborator normalize_path (wutil). Modelled from the spec: collapse
duplicate slashes and dot segments, resolve dot-dot segments. -/
def normalizePath (p : List Nat) : List Nat :=
  let leading : List Nat := if nthc p 0 = 47 then [47] else []
  let segs := (p.splitOn 47).filter (fun s => s ≠ [] && s ≠ [46])
  let segs := segs.foldl (fun acc s =>
    if s = [46, 46] then acc.dropLast else acc ++ [s]) ([] : List (List Nat))
  let body := List.intercalate [47] segs
  if leading = [] && body = [] then [46] else leading ++ body

/-- env_var_t::missing_or_empty from the variable-store interface. -/
def missingOrEmpty : Option EnvVarT → Bool
  | none => true
  | some v => joinStrings v.values v.delimiter = []

/-- expand_home_directory: resolve a leading HOME_DIRECTORY marker. -/
def expandHomeDirectory (env : Environment) (input : List Nat) : List Nat :=
  if nthc input 0 = HOME_DIRECTORY && input ≠ [] then
    let (username, tailIdx) := homeDirectoryName input
    let homeAndTail : Option (List Nat) × Nat :=
      if username = [] then
        let homeVar := env.get (str "HOME")
        if missingOrEmpty homeVar then (none, 1)
        else (some (joinStrings (homeVar.map EnvVarT.values |>.getD []) 32), 1)
      else (env.userHome username, tailIdx)
    match homeAndTail with
    | (some home, tdx) => normalizePath home ++ input.drop tdx
    | (none, _) =>
      if username = [] then []
      else 126 :: input.drop 1
  else input

def expandPercentSelf (env : Environment) (input : List Nat) : List Nat :=
  if nthc input 0 = PROCESS_EXPAND_SELF && input ≠ [] then
    str (toString env.pid) ++ input.drop 1
  else input

/-! ### Wildcard / path stage (expand.cpp lines 810-836 and 934-1024) -/

/-- remove_internal_separator: drop all INTERNAL_SEPARATOR characters and,
when conv is set, downgrade the wildcard sentinels to their literal
equivalents. -/
def removeInternalSeparator (s : List Nat) (conv : Bool) : List Nat :=
  let s := s.filter (fun c => c ≠ INTERNAL_SEPARATOR)
  if conv then
    s.map (fun c =>
      if c = ANY_CHAR then 63
      else if c = ANY_STRING || c = ANY_STRING_RECURSIVE then 42
      else c)
  else s

/-- Collaborator wildcard_has with internal set: tests for wildcard
sentinels. Modelled from the spec. -/
def wildcardHas (s : List Nat) : Bool :=
  s.any (fun c => c = ANY_CHAR || c = ANY_STRING || c = ANY_STRING_RECURSIVE)

/-- Collaborator path_apply_working_directory. Modelled from the spec: the
path collaborator joins a relative candidate onto the working directory. -/
def pathApplyWorkingDirectory (p wd : List Nat) : List Nat :=
  if p = [] then p
  else if nthc p 0 = 47 then p
  else wd ++ p

/-- Natural comparison for completion sorting: digit runs compare
numerically, otherwise code points compare. Modelled from the spec
(wcsfilecmp lives in the utility collaborator). -/
def naturalLess : Nat → List Nat → List Nat → Bool
  | 0, _, _ => false
  | _+1, [], b => b ≠ []
  | _+1, _ :: _, [] => false
  | fuel+1, a@(c :: arest), b@(d :: brest) =>
    if isDigitW c && isDigitW d then
      let da := a.takeWhile isDigitW
      let db := b.takeWhile isDigitW
      let na := da.foldl (fun acc x => acc * 10 + (x - 48)) 0
      let nb := db.foldl (fun acc x => acc * 10 + (x - 48)) 0
      if na ≠ nb then decide (na < nb)
      else naturalLess fuel (a.drop da.length) (b.drop db.length)
    else if c = d then naturalLess fuel arest brest
    else decide (c < d)

def isNaturallyLessThan (a b : CompletionT) : Bool :=
  naturalLess (a.completion.length + 1) a.completion b.completion

def insertSorted (le : CompletionT → CompletionT → Bool) (x : CompletionT) :
    List CompletionT → List CompletionT
  | [] => [x]
  | y :: ys => if le y x then y :: insertSorted le x ys else x :: y :: ys

/-- Sorting of wildcard-stage output by the natural order. -/
def sortCompletions (cs : List CompletionT) : List CompletionT :=
  cs.foldl (fun acc c => insertSorted isNaturallyLessThan c acc) []

/-! ### The expander stages (expand.cpp lines 838-1024) -/

structure ExpOut where
  result : ExpandResult
  comps : List CompletionT
  errs : List ParseErrorT
deriving DecidableEq, Repr

def stageCmdsubst (env : Environment) (flags : ExpandFlags) (input : List Nat) : ExpOut :=
  if flags.skipCmdsubst then
    match locateCmdsubst input true with
    | LocateRes.notFound => ⟨ExpandResult.ok, [mkComp input], []⟩
    | LocateRes.found st _ =>
      ⟨ExpandResult.error, [], [⟨st, ErrCode.cmdsubstErr, ErrText.cmdsubstNotAllowed⟩]⟩
    | LocateRes.mismatched => ⟨ExpandResult.error, [], []⟩
  else
    match expandCmdsubst env input with
    | (true, outs, errs) => ⟨ExpandResult.ok, outs.map mkComp, errs⟩
    | (false, outs, errs) => ⟨ExpandResult.error, outs.map mkComp, errs⟩

def stageVariables (env : Environment) (flags : ExpandFlags) (input : List Nat) : ExpOut :=
  let next := unescapeSpecial input
  if flags.skipVariables then
    ⟨ExpandResult.ok,
      [mkComp (next.map (fun c => if c = VARIABLE_EXPAND then 36 else c))], []⟩
  else
    match expandVariables env next with
    | (true, outs, errs) => ⟨ExpandResult.ok, outs.map mkComp, errs⟩
    | (false, outs, errs) => ⟨ExpandResult.error, outs.map mkComp, errs⟩

def stageBraces (flags : ExpandFlags) (input : List Nat) : ExpOut :=
  match expandBraces input flags with
  | (r, outs, errs) => ⟨r, outs.map mkComp, errs⟩

def stageHomeAndSelf (env : Environment) (flags : ExpandFlags) (input : List Nat) : ExpOut :=
  let input := if !flags.skipHomeDirectories then expandHomeDirectory env input else input
  ⟨ExpandResult.ok, [mkComp (expandPercentSelf env input)], []⟩

def stageWildcards (env : Environment) (flags : ExpandFlags) (pathToExpand : List Nat) : ExpOut :=
  let pathToExpand := removeInternalSeparator pathToExpand flags.skipWildcards
  let hasWildcard := wildcardHas pathToExpand
  if hasWildcard && flags.executablesOnly then
    ⟨ExpandResult.ok, [], []⟩
  else if (flags.forCompletions && !flags.skipWildcards) || hasWildcard then
    let workingDir := env.pwdSlash
    let forCd := flags.specialForCd
    let forCommand := flags.specialForCommand
    let effectiveWorkingDirs : List (List Nat) :=
      if !forCd && !forCommand then [workingDir]
      else if (str "/").isPrefixOf pathToExpand ||
              (str "./").isPrefixOf pathToExpand ||
              (str "../").isPrefixOf pathToExpand ||
              (forCommand && pathToExpand.contains 47) then [workingDir]
      else
        let paths := ((env.get (if forCd then str "CDPATH" else str "PATH")).map
          EnvVarT.values).getD []
        let paths := if paths = [] then [if forCd then [46] else []] else paths
        paths.map (fun p => pathApplyWorkingDirectory p workingDir)
    let scan := effectiveWorkingDirs.foldl
      (fun (acc : ExpandResult × List CompletionT × Bool) wd =>
        match acc with
        | (res, expanded, halted) =>
          if halted then (res, expanded, halted)
          else
            match env.wildcardEx pathToExpand wd with
            | (wcRes, outs) =>
              if wcRes > 0 then (ExpandResult.wildcardMatch, expanded ++ outs, false)
              else if wcRes < 0 then (ExpandResult.error, expanded ++ outs, true)
              else (res, expanded ++ outs, false))
      (ExpandResult.wildcardNoMatch, [], false)
    ⟨scan.1, sortCompletions scan.2.1, []⟩
  else
    if !flags.forCompletions then ⟨ExpandResult.ok, [mkComp pathToExpand], []⟩
    else ⟨ExpandResult.ok, [], []⟩

/-! ### The driver (expand.cpp lines 52-75 and 1026-1138) -/

def UNCLEAN_FIRST : List Nat := [126, 37]
def UNCLEAN : List Nat := [36, 42, 63, 92, 34, 39, 40, 123, 125, 41]

/-- expand_is_clean: empty, or first character not tilde or percent and no
character from the unclean set anywhere. -/
def expandIsClean (s : List Nat) : Bool :=
  match s with
  | [] => true
  | c :: _ => !UNCLEAN_FIRST.contains c && s.all (fun x => !UNCLEAN.contains x)

/-- The driver's aggregation of a stage invocation result into the running
total: a wildcard_no_match never overwrites a wildcard_match. -/
def aggStep (total this : ExpandResult) : ExpandResult :=
  if this = ExpandResult.wildcardNoMatch && total = ExpandResult.wildcardMatch
  then total else this

/-- Run one stage over every in-flight completion, aggregating results and
halting on error, as the inner loop of expand_string does. -/
def runStage (f : List Nat → ExpOut) :
    List CompletionT → ExpandResult → ExpandResult × List CompletionT × List ParseErrorT
  | [], total => (total, [], [])
  | c :: cs, total =>
    let o := f c.completion
    let total := aggStep total o.result
    if total = ExpandResult.error then (total, o.comps, o.errs)
    else
      match runStage f cs total with
      | (tf, outs2, errs2) => (tf, o.comps ++ outs2, o.errs ++ errs2)

/-- Run the stage list in order, the output of each stage feeding the next,
halting on error, as the outer loop of expand_string does. -/
def runStages (fs : List (List Nat → ExpOut)) (comps : List CompletionT)
    (total : ExpandResult) (errs : List ParseErrorT) :
    ExpandResult × List CompletionT × List ParseErrorT :=
  match fs with
  | [] => (total, comps, errs)
  | f :: rest =>
    match runStage f comps total with
    | (t, cs, es) =>
      if t = ExpandResult.error then (t, cs, errs ++ es)
      else runStages rest cs t (errs ++ es)

def expandTilde (env : Environment) (input : List Nat) : List Nat :=
  if nthc input 0 = 126 && input ≠ [] then
    expandHomeDirectory env (HOME_DIRECTORY :: input.drop 1)
  else input

/-- unexpand_tildes: after the pipeline, restore the tilde prefix on
completions that replace the token and start with the expanded home. -/
def unexpandTildes (env : Environment) (input : List Nat) (comps : List CompletionT) :
    List CompletionT :=
  if nthc input 0 ≠ 126 || input = [] then comps
  else if !comps.any (fun c => c.replacesToken) then comps
  else
    let usernameWithTilde := 126 :: (homeDirectoryName input).1
    let home := expandTilde env usernameWithTilde
    comps.map (fun c =>
      if c.replacesToken && home.isPrefixOf c.completion then
        ⟨usernameWithTilde ++ c.completion.drop home.length, c.replacesToken, true⟩
      else c)

def theStages (env : Environment) (flags : ExpandFlags) : List (List Nat → ExpOut) :=
  [stageCmdsubst env flags, stageVariables env flags, stageBraces flags,
   stageHomeAndSelf env flags, stageWildcards env flags]

/-- The slow path of expand_string: seed one completion, run the five
stages, then un-expand tildes unless home directories were skipped. On
error the completions are discarded. -/
def expandStringSlow (env : Environment) (flags : ExpandFlags) (input : List Nat) :
    ExpandResult × List CompletionT × List ParseErrorT :=
  match runStages (theStages env flags) [mkComp input] ExpandResult.ok [] with
  | (t, cs, es) =>
    if t = ExpandResult.error then (t, [], es)
    else
      let cs := if !flags.skipHomeDirectories then unexpandTildes env input cs else cs
      (t, cs, es)

/-- expander_t::expand_string: the clean fast path, otherwise the staged
slow path. -/
def expandString (env : Environment) (flags : ExpandFlags) (input : List Nat) :
    ExpandResult × List CompletionT × List ParseErrorT :=
  if !flags.forCompletions && expandIsClean input then
    (ExpandResult.ok, [mkComp input], [])
  else expandStringSlow env flags input

/-- expand_one: succeeds only when the pipeline does not error and produces
exactly one completion; only then is the in-out string overwritten. -/
def expandOne (env : Environment) (flags : ExpandFlags) (s : List Nat) : Bool × List Nat :=
  if !flags.forCompletions && expandIsClean s then (true, s)
  else
    let flags1 : ExpandFlags := { flags with noDescriptions := true }
    match expandString env flags1 s with
    | (r, comps, _) =>
      if r ≠ ExpandResult.error && comps.length = 1 then
        (true, (comps.headD (mkComp s)).completion)
      else (false, s)

/-! ## Helper lemmas -/

lemma validVarNameChar_lt {c : Nat} (h : validVarNameChar c = true) : c < 123 := by
  simp only [validVarNameChar, isDigitW, Bool.or_eq_true, Bool.and_eq_true,
    decide_eq_true_eq, beq_iff_eq] at h
  omega

/-- Characters that are neither variable-expansion marker. -/
def notVarMarker (c : Nat) : Bool :=
  !(c = VARIABLE_EXPAND) && !(c = VARIABLE_EXPAND_SINGLE)

lemma notVarMarker_of_lt {c : Nat} (h : c < 64976) : notVarMarker c = true := by
  simp only [notVarMarker, VARIABLE_EXPAND, VARIABLE_EXPAND_SINGLE, Bool.and_eq_true,
    Bool.not_eq_true', decide_eq_false_iff_not]
  omega

lemma nthc_all {P : Nat → Bool} (hP0 : P 0 = true) :
    ∀ (s : List Nat) (j : Nat), s.all P = true → P (nthc s j) = true := by
  intro s
  induction s with
  | nil => intro j _; simpa [nthc] using hP0
  | cons c t ih =>
    intro j hall
    rw [List.all_cons, Bool.and_eq_true] at hall
    cases j with
    | zero => simpa [nthc] using hall.1
    | succ j => simpa [nthc] using ih j hall.2

lemma nthc_cons_succ (c : Nat) (t : List Nat) (j : Nat) :
    nthc (c :: t) (j + 1) = nthc t j := by
  simp [nthc]

lemma nthc_append_right (a b : List Nat) (j : Nat) :
    nthc (a ++ b) (a.length + j) = nthc b j := by
  simp only [nthc]
  rw [List.getD_append_right a b 0 (a.length + j) (Nat.le_add_right _ _)]
  congr 1
  omega

lemma findVarexp_none (s : List Nat) :
    ∀ k, (∀ j, j < k → notVarMarker (nthc s j) = true) → findVarexp s k = none := by
  intro k
  induction k with
  | zero => intro _; rfl
  | succ k ih =>
    intro h
    have hk := h k (Nat.lt_succ_self k)
    simp only [notVarMarker, Bool.and_eq_true, Bool.not_eq_true',
      decide_eq_false_iff_not] at hk
    simp only [findVarexp, if_neg hk.1, if_neg hk.2]
    exact ih (fun j hj => h j (Nat.lt_succ_of_lt hj))

lemma findVarexp_marker0 (s : List Nat) (isS : Bool)
    (h0 : nthc s 0 = (if isS then VARIABLE_EXPAND_SINGLE else VARIABLE_EXPAND)) :
    ∀ k, (∀ j, 1 ≤ j → j ≤ k → notVarMarker (nthc s j) = true) →
    findVarexp s (k + 1) = some (0, isS) := by
  intro k
  induction k with
  | zero =>
    intro _
    cases isS with
    | false => simp only [findVarexp]; rw [if_pos (by simpa using h0)]
    | true =>
      simp only [findVarexp]
      rw [if_neg, if_pos (by simpa using h0)]
      rw [show nthc s 0 = VARIABLE_EXPAND_SINGLE from by simpa using h0]
      simp [VARIABLE_EXPAND, VARIABLE_EXPAND_SINGLE]
  | succ k ih =>
    intro h
    have hk := h (k + 1) (Nat.le_add_left 1 k) (Nat.le_refl _)
    simp only [notVarMarker, Bool.and_eq_true, Bool.not_eq_true',
      decide_eq_false_iff_not] at hk
    simp only [findVarexp, if_neg hk.1, if_neg hk.2]
    exact ih (fun j h1 h2 => h j h1 (Nat.le_succ_of_le h2))

lemma findVarexp_marker (s : List Nat) (i : Nat) (isS : Bool)
    (h0 : nthc s i = (if isS then VARIABLE_EXPAND_SINGLE else VARIABLE_EXPAND)) :
    ∀ k, i < k → (∀ j, i < j → j < k → notVarMarker (nthc s j) = true) →
    findVarexp s k = some (i, isS) := by
  intro k
  induction k with
  | zero => intro h; omega
  | succ k ih =>
    intro hik h
    by_cases hi : k = i
    · subst hi
      cases isS with
      | false => simp only [findVarexp]; rw [if_pos (by simpa using h0)]
      | true =>
        simp only [findVarexp]
        rw [if_neg, if_pos (by simpa using h0)]
        rw [show nthc s k = VARIABLE_EXPAND_SINGLE from by simpa using h0]
        simp [VARIABLE_EXPAND, VARIABLE_EXPAND_SINGLE]
    · have hk := h k (by omega) (Nat.lt_succ_self k)
      simp only [notVarMarker, Bool.and_eq_true, Bool.not_eq_true',
        decide_eq_false_iff_not] at hk
      simp only [findVarexp, if_neg hk.1, if_neg hk.2]
      exact ih (by omega) (fun j h1 h2 => h j h1 (Nat.lt_succ_of_lt h2))

lemma nameLen_all_valid (nm : List Nat) (rest : List Nat)
    (h : nm.all validVarNameChar = true) :
    nameLen (nm ++ rest) = nm.length + nameLen rest := by
  induction nm with
  | nil => simp
  | cons c t ih =>
    rw [List.all_cons, Bool.and_eq_true] at h
    have hlt := validVarNameChar_lt h.1
    have hne : ¬(c = VARIABLE_EXPAND_EMPTY) := by
      intro hc
      rw [hc] at hlt
      simp only [VARIABLE_EXPAND_EMPTY] at hlt
      omega
    rw [List.cons_append]
    show nameLen (c :: (t ++ rest)) = (c :: t).length + nameLen rest
    rw [nameLen, if_neg hne, if_pos h.1, ih h.2, List.length_cons]
    omega

lemma all_notVarMarker_of_valid (nm : List Nat) (h : nm.all validVarNameChar = true) :
    nm.all notVarMarker = true := by
  rw [List.all_eq_true] at h ⊢
  intro c hc
  exact notVarMarker_of_lt (Nat.lt_trans (validVarNameChar_lt (h c hc)) (by omega))

/-- A minimal concrete environment for witnesses: no variables, no history,
trivial collaborators. -/
def envNull : Environment :=
  ⟨fun _ => none, [47], none, fun _ => none, fun _ => (some [], 0), fun _ _ => (0, []), 7⟩

/-- Environment binding v to the values a, b, c with a space delimiter. -/
def envAbc : Environment :=
  ⟨fun n => if n = [118] then some ⟨[[97], [98], [99]], 32⟩ else none,
   [47], none, fun _ => none, fun _ => (some [], 0), fun _ _ => (0, []), 7⟩

/-- Environment with a two-item history. -/
def envHist : Environment :=
  ⟨fun _ => none, [47], some ⟨[[108, 115], [99, 100]], fun _ => none, 2⟩,
   fun _ => none, fun _ => (some [], 0), fun _ _ => (0, []), 7⟩

/-- Flags with only skip_variables set. -/
def flagsSkipVars : ExpandFlags :=
  ⟨false, false, true, false, false, false, false, false, false, false⟩

/-- Flags with only for_completions set. -/
def flagsForCompletions : ExpandFlags :=
  ⟨true, false, false, false, false, false, false, false, false, false⟩

/-- Decimal digits of a natural number, most significant first, by fuel
(the fuel argument bounds the number, so the definition computes). -/
def natDigitsF : Nat → Nat → List Nat
  | 0, n => [48 + n % 10]
  | f+1, n => if n < 10 then [48 + n] else natDigitsF f (n / 10) ++ [48 + n % 10]

def natDigits (n : Nat) : List Nat := natDigitsF n n

/-- Canonical decimal source text of an integer. -/
def intRepr (A : Int) : List Nat :=
  if A < 0 then 45 :: natDigits A.natAbs else natDigits A.toNat

/-- The index list C4 describes for a range slice A..B over a collection of
size n: negative endpoints resolve as n + x + 1; when exactly one endpoint is
negative the direction is forced by the sign of the second endpoint (ascending
when it is negative, descending otherwise); when the signs agree each endpoint
is clamped to n and the direction follows their order; the range contributes
nothing only when both resolved endpoints exceed n. -/
def claimRangeIdx (A B : Int) (n : Nat) : List Int :=
  let i1 : Int := if A < 0 then (n : Int) + A + 1 else A
  let i2 : Int := if B < 0 then (n : Int) + B + 1 else B
  if i1 > (n : Int) && i2 > (n : Int) then []
  else if (decide (A < 0)) ≠ (decide (B < 0)) then
    rangeSeq i1 i2 (if B < 0 then 1 else -1)
  else
    rangeSeq (if i1 < (n : Int) then i1 else (n : Int))
             (if i2 < (n : Int) then i2 else (n : Int))
             (if i2 < i1 then -1 else 1)

/-- Characters admissible for the C1 fast/slow agreement: clean for the
fast-path test and not an in-band sentinel. -/
def c1Ok (c : Nat) : Bool := !UNCLEAN.contains c && !sentinelChar c

/-! ## Claim C3 -/

/-- C3 counterexample: a literal index 0 at the second position of a slice is
not a syntax error. parse_slice accepts the slice 1-space-0 (returning both
indices), and expanding v-bracket-1-0 with v bound to a, b, c succeeds,
selecting only the first element and reporting no error at the 0's offset. -/
theorem c3_counterexample :
    parseSlice [91, 49, 32, 48, 93] 3 = Except.ok ([1, 0], 5) ∧
    expandVariables envAbc [VARIABLE_EXPAND, 118, 91, 49, 32, 48, 93] =
      (true, [[97]], []) := by
  constructor
  · rfl
  · rfl

/-- C3 (amended): a slice consisting of the single literal token 0 is a
syntax error reported at the 0's offset, for every effective array size and
hence regardless of the values of v or whether v is set: parse_slice returns
the offset of the 0, and expand_variables turns it into a syntax error with
the indices-start-at-1 message at the offset of the 0 inside the input
(offset name-length + 2, counting the marker and the opening bracket). A 0
preceded by a non-zero token is accepted instead, per the counterexample. -/
theorem c3_zero_index_error :
    (∀ sz : Nat, parseSlice [91, 48, 93] sz = Except.error 1) ∧
    (∀ (env : Environment) (nm : List Nat), nm ≠ [] → nm.all validVarNameChar = true →
      expandVariables env (VARIABLE_EXPAND :: (nm ++ [91, 48, 93])) =
        (false, [], [⟨nm.length + 2, ErrCode.syntaxErr, ErrText.zeroIndex⟩])) := by
  constructor
  · intro sz; rfl
  · intro env nm hne hval
    set instr := VARIABLE_EXPAND :: (nm ++ [91, 48, 93]) with hinstr
    have hlen : instr.length = nm.length + 4 := by simp [hinstr]
    have hbody : instr.drop 1 = nm ++ [91, 48, 93] := rfl
    have hfind : findVarexp instr instr.length = some (0, false) := by
      rw [hlen]
      rw [show nm.length + 4 = (nm.length + 3) + 1 from by omega]
      apply findVarexp_marker0 instr false (by simp [hinstr, nthc])
      intro j h1 h2
      obtain ⟨j', rfl⟩ : ∃ j', j = j' + 1 := ⟨j - 1, by omega⟩
      rw [hinstr, nthc_cons_succ]
      apply nthc_all (by decide)
      simp only [List.all_append, all_notVarMarker_of_valid nm hval, Bool.true_and]
      decide
    have hnlen : nameLen (nm ++ [91, 48, 93]) = nm.length := by
      rw [nameLen_all_valid nm _ hval]; rfl
    have hnthc91 : nthc instr (1 + nm.length) = 91 := by
      rw [hinstr, Nat.add_comm 1 nm.length]
      rw [nthc_cons_succ]
      have h0 := nthc_append_right nm [91, 48, 93] 0
      simpa [nthc] using h0
    have hnthc48 : nthc instr (1 + nm.length + 1) = 48 := by
      rw [hinstr]
      rw [show 1 + nm.length + 1 = (nm.length + 1) + 1 from by omega]
      rw [nthc_cons_succ]
      rw [nthc_append_right nm _ 1]
      rfl
    have hdropSlice : instr.drop (1 + nm.length) = [91, 48, 93] := by
      rw [hinstr]
      rw [show 1 + nm.length = nm.length + 1 from by omega]
      rw [List.drop_succ_cons]
      exact List.drop_left nm _
    have hps : ∀ sz : Nat, parseSlice [91, 48, 93] sz = Except.error 1 := fun _ => rfl
    rw [expandVariables, hlen]
    rw [expandVarsF]
    rw [if_neg (by omega : ¬(nm.length + 4 = 0))]
    rw [hlen] at hfind
    rw [hfind]
    simp only [hbody, hnlen]
    rw [if_neg (by simpa using hne : ¬(nm.length = 0))]
    simp only [Nat.zero_add, Bool.and_eq_true, decide_eq_true_eq, hlen]
    rw [if_pos ⟨by omega, hnthc91⟩]
    rw [hdropSlice, hps]
    simp only [hnthc48]
    rw [if_pos trivial]
    rw [show 1 + nm.length + 1 = nm.length + 2 from by omega]

/-- Witness for the amended C3 theorem at the concrete variable name v and a
concrete size, applying the theorem itself. -/
theorem c3_zero_index_error_witness :
    parseSlice [91, 48, 93] 5 = Except.error 1 ∧
    expandVariables envNull [VARIABLE_EXPAND, 118, 91, 48, 93] =
      (false, [], [⟨3, ErrCode.syntaxErr, ErrText.zeroIndex⟩]) := by
  refine ⟨c3_zero_index_error.1 5, ?_⟩
  have h := c3_zero_index_error.2 envNull [118] (by decide) (by decide)
  simpa using h

/-! ## Claim C5 -/

/-- C5: expanding the quoted-single form of a set variable produces exactly
one completion, the selected values joined with the variable's delimiter; a
space is the delimiter when the variable is history. -/
theorem c5_quoted_single_join :
    (∀ (env : Environment) (nm : List Nat) (vals : List (List Nat)) (d : Nat),
      nm ≠ [] → nm.all validVarNameChar = true → nm ≠ strHistory →
      env.get nm = some ⟨vals, d⟩ →
      expandVariables env (VARIABLE_EXPAND_SINGLE :: nm) =
        (true, [joinStrings vals d], [])) ∧
    (∀ (env : Environment) (h : HistoryT), env.history = some h →
      expandVariables env (VARIABLE_EXPAND_SINGLE :: strHistory) =
        (true, [joinStrings h.items 32], [])) := by
  constructor
  · intro env nm vals d hne hval hh hget
    set instr := VARIABLE_EXPAND_SINGLE :: nm with hinstr
    have hlen : instr.length = nm.length + 1 := by simp [hinstr]
    have hbody : instr.drop 1 = nm := rfl
    have hfind : findVarexp instr instr.length = some (0, true) := by
      rw [hlen]
      apply findVarexp_marker0 instr true (by simp [hinstr, nthc])
      intro j h1 h2
      obtain ⟨j', rfl⟩ : ∃ j', j = j' + 1 := ⟨j - 1, by omega⟩
      rw [hinstr, nthc_cons_succ]
      exact nthc_all (by decide) nm j' (all_notVarMarker_of_valid nm hval)
    have hnlen : nameLen nm = nm.length := by
      have h0 := nameLen_all_valid nm [] hval
      simpa using h0
    have hnotve : nm ≠ [VARIABLE_EXPAND_EMPTY] := by
      intro hx
      rw [hx] at hval
      exact absurd hval (by decide)
    have hdrop : instr.drop (1 + nm.length) = [] := by
      apply List.drop_eq_nil_of_le
      omega
    rw [expandVariables, hlen]
    rw [expandVarsF]
    rw [if_neg (by omega : ¬(nm.length + 1 = 0))]
    rw [hlen] at hfind
    rw [hfind]
    simp only [hbody, hnlen, List.take_length]
    rw [if_neg (by simpa using hne : ¬(nm.length = 0))]
    simp only [Nat.zero_add, Bool.and_eq_true, decide_eq_true_eq, hlen]
    rw [if_neg (by omega :
      ¬(1 + nm.length < nm.length + 1 ∧ nthc instr (1 + nm.length) = 91))]
    have hor : ¬(nm = strHistory ∨ nm = [VARIABLE_EXPAND_EMPTY]) := by
      rintro (h | h)
      · exact hh h
      · exact hnotve h
    simp only [decide_eq_true_eq, if_neg hh, if_neg hnotve, hget, if_neg hor,
      Bool.or_eq_true, decide_eq_true_eq]
    rw [if_pos trivial]
    simp only [List.take_zero, hdrop, List.append_nil, List.nil_append,
      ne_eq, not_true_eq_false, if_false, reduceIte]
    rw [expandVarsF]
    rw [if_pos rfl]
  · intro env h hh
    obtain ⟨g, pwd, hist, uh, ex, wc, pd⟩ := env
    change hist = some h at hh
    subst hh
    show (true, [joinStrings h.items 32 ++ []], ([] : List ParseErrorT)) =
      ((true, [joinStrings h.items 32], []) : Bool × List (List Nat) × List ParseErrorT)
    simp


/-- Witness for C5 at concrete inputs: the variable v bound to a, b, c with
a space delimiter, and a concrete history, both applied through the theorem. -/
theorem c5_quoted_single_join_witness :
    expandVariables envAbc [VARIABLE_EXPAND_SINGLE, 118] =
      (true, [[97, 32, 98, 32, 99]], []) ∧
    expandVariables envHist (VARIABLE_EXPAND_SINGLE :: strHistory) =
      (true, [[108, 115, 32, 99, 100]], []) := by
  constructor
  · have h := c5_quoted_single_join.1 envAbc [118] [[97], [98], [99]] 32
      (by decide) (by decide) (by decide) (by decide)
    simpa [joinStrings] using h
  · have h := c5_quoted_single_join.2 envHist ⟨[[108, 115], [99, 100]], fun _ => none, 2⟩
      rfl
    simpa [joinStrings] using h

/-! ## Claim C6 -/

/-- C6 counterexample: the bare quoted-single form of an unset variable does
not replace the variable region with the VAR_EXPAND_EMPTY sentinel. The
actual expansion yields the empty string; re-expanding the string the claim
describes (the region replaced by the sentinel) yields the sentinel itself,
a different completion list. -/
theorem c6_counterexample :
    expandVariables envNull [VARIABLE_EXPAND_SINGLE, 117] = (true, [[]], []) ∧
    expandVariables envNull [VARIABLE_EXPAND_EMPTY] =
      (true, [[VARIABLE_EXPAND_EMPTY]], []) ∧
    ([] : List Nat) ≠ [VARIABLE_EXPAND_EMPTY] := by
  refine ⟨rfl, rfl, by decide⟩

/-- The rewrite of the quoted compound marker-marker-name form evaluates to
the empty completion: the second unfolding consumes the synthesized
VAR_EXPAND_EMPTY as an empty name and removes it. -/
lemma expandVarsF_doubleSingle (env : Environment) (f : Nat) :
    expandVarsF env (f + 2) [VARIABLE_EXPAND_SINGLE, VARIABLE_EXPAND_EMPTY] 1 =
      (true, [[]], []) := rfl

/-- C6 (amended): a missing variable never fails. The unquoted form expands
to nothing (zero completions); the bare quoted-single form removes the
variable region, inserting the VAR_EXPAND_EMPTY sentinel only when the
character before the marker is VAR_EXPAND_SINGLE (as in the quoted
double-marker form), and re-expands; a slice on the unset variable parses
against an effective length of one, so the unset variable sliced at 1 is
syntactically valid and expands to nothing. -/
theorem c6_missing_var_behavior :
    ∀ (env : Environment) (nm : List Nat), nm ≠ [] → nm.all validVarNameChar = true →
    nm ≠ strHistory → env.get nm = none →
    expandVariables env (VARIABLE_EXPAND :: nm) = (true, [], []) ∧
    expandVariables env (VARIABLE_EXPAND_SINGLE :: nm) = (true, [[]], []) ∧
    expandVariables env (VARIABLE_EXPAND_SINGLE :: VARIABLE_EXPAND_SINGLE :: nm) =
      (true, [[]], []) ∧
    expandVariables env (VARIABLE_EXPAND :: (nm ++ [91, 49, 93])) = (true, [], []) := by
  intro env nm hne hval hh hget
  have hnotve : nm ≠ [VARIABLE_EXPAND_EMPTY] := by
    intro hx
    rw [hx] at hval
    exact absurd hval (by decide)
  have hor : ¬(nm = strHistory ∨ nm = [VARIABLE_EXPAND_EMPTY]) := by
    rintro (h | h)
    · exact hh h
    · exact hnotve h
  have hnlen : nameLen nm = nm.length := by
    have h0 := nameLen_all_valid nm [] hval
    simpa using h0
  have hnm0 : ¬(nm.length = 0) := by simpa using hne
  have hmark : ∀ j', notVarMarker (nthc nm j') = true :=
    fun j' => nthc_all (by decide) nm j' (all_notVarMarker_of_valid nm hval)
  refine ⟨?_, ?_, ?_, ?_⟩
  · -- Unquoted missing variable: nothing, successfully.
    set instr := VARIABLE_EXPAND :: nm with hinstr
    have hlen : instr.length = nm.length + 1 := by simp [hinstr]
    have hfind : findVarexp instr instr.length = some (0, false) := by
      rw [hlen]
      apply findVarexp_marker0 instr false (by simp [hinstr, nthc])
      intro j h1 h2
      obtain ⟨j', rfl⟩ : ∃ j', j = j' + 1 := ⟨j - 1, by omega⟩
      rw [hinstr, nthc_cons_succ]
      exact hmark j'
    rw [expandVariables, hlen]
    rw [expandVarsF]
    rw [if_neg (by omega : ¬(nm.length + 1 = 0))]
    rw [hlen] at hfind
    rw [hfind]
    simp only [show instr.drop 1 = nm from rfl, hnlen, List.take_length]
    rw [if_neg hnm0]
    simp only [Nat.zero_add, Bool.and_eq_true, decide_eq_true_eq, hlen]
    rw [if_neg (by omega :
      ¬(1 + nm.length < nm.length + 1 ∧ nthc instr (1 + nm.length) = 91))]
    simp only [Bool.or_eq_true, decide_eq_true_eq, if_neg hh, if_neg hor, hget,
      ite_self, Bool.not_false, if_pos trivial]
  · -- Bare quoted-single missing variable: the empty string.
    set instr := VARIABLE_EXPAND_SINGLE :: nm with hinstr
    have hlen : instr.length = nm.length + 1 := by simp [hinstr]
    have hfind : findVarexp instr instr.length = some (0, true) := by
      rw [hlen]
      apply findVarexp_marker0 instr true (by simp [hinstr, nthc])
      intro j h1 h2
      obtain ⟨j', rfl⟩ : ∃ j', j = j' + 1 := ⟨j - 1, by omega⟩
      rw [hinstr, nthc_cons_succ]
      exact hmark j'
    have hdrop : instr.drop (1 + nm.length) = [] := by
      apply List.drop_eq_nil_of_le
      omega
    rw [expandVariables, hlen]
    rw [expandVarsF]
    rw [if_neg (by omega : ¬(nm.length + 1 = 0))]
    rw [hlen] at hfind
    rw [hfind]
    simp only [show instr.drop 1 = nm from rfl, hnlen, List.take_length]
    rw [if_neg hnm0]
    simp only [Nat.zero_add, Bool.and_eq_true, decide_eq_true_eq, hlen]
    rw [if_neg (by omega :
      ¬(1 + nm.length < nm.length + 1 ∧ nthc instr (1 + nm.length) = 91))]
    simp only [Bool.or_eq_true, decide_eq_true_eq, if_neg hh, if_neg hor, hget,
      ite_self]
    simp only [List.take_zero, hdrop, List.append_nil, List.nil_append,
      ne_eq, not_true_eq_false, if_false, reduceIte]
    rw [expandVarsF]
    rw [if_pos rfl]
    simp
  · -- Quoted double marker with a missing name: the sentinel is inserted
    -- after the preceding quoted marker, and the re-expansion consumes it.
    set instr := VARIABLE_EXPAND_SINGLE :: VARIABLE_EXPAND_SINGLE :: nm with hinstr
    have hlen : instr.length = nm.length + 2 := by simp [hinstr]
    have hfind : findVarexp instr instr.length = some (1, true) := by
      rw [hlen]
      apply findVarexp_marker instr 1 true (by simp [hinstr, nthc])
      · omega
      · intro j h1 h2
        obtain ⟨j', rfl⟩ : ∃ j', j = j' + 2 := ⟨j - 2, by omega⟩
        rw [hinstr]
        rw [show j' + 2 = (j' + 1) + 1 from rfl, nthc_cons_succ, nthc_cons_succ]
        exact hmark j'
    have hdrop : instr.drop (2 + nm.length) = [] := by
      apply List.drop_eq_nil_of_le
      omega
    rw [expandVariables, hlen]
    rw [expandVarsF]
    rw [if_neg (by omega : ¬(nm.length + 2 = 0))]
    rw [hlen] at hfind
    rw [hfind]
    simp only [show instr.drop (1 + 1) = nm from rfl, hnlen, List.take_length]
    rw [if_neg hnm0]
    simp only [Bool.and_eq_true, decide_eq_true_eq, hlen]
    rw [if_neg (by omega :
      ¬(1 + 1 + nm.length < nm.length + 2 ∧ nthc instr (1 + 1 + nm.length) = 91))]
    simp only [Bool.or_eq_true, decide_eq_true_eq, if_neg hh, if_neg hor, hget,
      ite_self]
    rw [show (1 + 1 + nm.length) = 2 + nm.length from by omega, hdrop]
    simp only [show instr.take 1 = [VARIABLE_EXPAND_SINGLE] from rfl,
      List.append_nil, ne_eq, reduceCtorEq, not_false_eq_true, List.getLast?_singleton,
      if_pos, and_self, reduceIte]
    exact expandVarsF_doubleSingle env nm.length
  · -- The unset variable sliced at 1: valid, expands to nothing.
    set instr := VARIABLE_EXPAND :: (nm ++ [91, 49, 93]) with hinstr
    have hlen : instr.length = nm.length + 4 := by simp [hinstr]
    have hfind : findVarexp instr instr.length = some (0, false) := by
      rw [hlen]
      rw [show nm.length + 4 = (nm.length + 3) + 1 from by omega]
      apply findVarexp_marker0 instr false (by simp [hinstr, nthc])
      intro j h1 h2
      obtain ⟨j', rfl⟩ : ∃ j', j = j' + 1 := ⟨j - 1, by omega⟩
      rw [hinstr, nthc_cons_succ]
      apply nthc_all (by decide)
      simp only [List.all_append, all_notVarMarker_of_valid nm hval, Bool.true_and]
      decide
    have hnlen2 : nameLen (nm ++ [91, 49, 93]) = nm.length := by
      rw [nameLen_all_valid nm _ hval]; rfl
    have hnthc91 : nthc instr (1 + nm.length) = 91 := by
      rw [hinstr, Nat.add_comm 1 nm.length]
      rw [nthc_cons_succ]
      have h0 := nthc_append_right nm [91, 49, 93] 0
      simpa [nthc] using h0
    have hdropSlice : instr.drop (1 + nm.length) = [91, 49, 93] := by
      rw [hinstr]
      rw [show 1 + nm.length = nm.length + 1 from by omega]
      rw [List.drop_succ_cons]
      exact List.drop_left nm _
    have hps : ∀ sz : Nat, parseSlice [91, 49, 93] sz = Except.ok ([1], 3) :=
      fun _ => rfl
    rw [expandVariables, hlen]
    rw [expandVarsF]
    rw [if_neg (by omega : ¬(nm.length + 4 = 0))]
    rw [hlen] at hfind
    rw [hfind]
    simp only [show instr.drop 1 = nm ++ [91, 49, 93] from rfl, hnlen2,
      List.take_left]
    rw [if_neg hnm0]
    simp only [Nat.zero_add, Bool.and_eq_true, decide_eq_true_eq, hlen]
    rw [if_pos ⟨by omega, hnthc91⟩]
    rw [hdropSlice, hps]
    simp only [Bool.or_eq_true, decide_eq_true_eq, if_neg hh, if_neg hor, hget,
      ite_self, Bool.not_false, if_pos trivial]

/-- Witness for the amended C6 theorem at the concrete unset name u. -/
theorem c6_missing_var_behavior_witness :
    expandVariables envNull [VARIABLE_EXPAND, 117] = (true, [], []) ∧
    expandVariables envNull [VARIABLE_EXPAND_SINGLE, 117] = (true, [[]], []) ∧
    expandVariables envNull
      [VARIABLE_EXPAND_SINGLE, VARIABLE_EXPAND_SINGLE, 117] = (true, [[]], []) ∧
    expandVariables envNull [VARIABLE_EXPAND, 117, 91, 49, 93] = (true, [], []) := by
  have h := c6_missing_var_behavior envNull [117] (by decide) (by decide)
    (by decide) (by decide)
  simpa using h

/-! ## Claim C7 -/


/-- C7 counterexample: in skip mode the variable stage does not rewrite the
quoted marker VAR_EXPAND_SINGLE back to a literal dollar. On the quoted
token double-quote dollar x double-quote, the stage emits the quoted marker
followed by x, not a dollar followed by x. -/
theorem c7_counterexample :
    stageVariables envNull flagsSkipVars [34, 36, 120, 34] =
      ⟨ExpandResult.ok, [mkComp [VARIABLE_EXPAND_SINGLE, 120]], []⟩ ∧
    [VARIABLE_EXPAND_SINGLE, 120] ≠ [36, 120] := by
  refine ⟨rfl, by decide⟩

/-- C7 (amended): when skip_variables is set the stage rewrites only the
unquoted sentinel VAR_EXPAND back to a literal dollar and passes the
unescaped string through as a single completion without substitution; the
quoted sentinel VAR_EXPAND_SINGLE is left in place, so it survives in the
output whenever the unescape produced it. -/
theorem c7_skip_variables_rewrite :
    (∀ (env : Environment) (flags : ExpandFlags) (input : List Nat),
      flags.skipVariables = true →
      stageVariables env flags input =
        ⟨ExpandResult.ok,
          [mkComp ((unescapeSpecial input).map
            (fun c => if c = VARIABLE_EXPAND then 36 else c))], []⟩) ∧
    (∀ s : List Nat, VARIABLE_EXPAND_SINGLE ∈ s →
      VARIABLE_EXPAND_SINGLE ∈ s.map
        (fun c => if c = VARIABLE_EXPAND then 36 else c)) := by
  constructor
  · intro env flags input hskip
    rw [stageVariables, if_pos hskip]
  · intro s hs
    exact List.mem_map.mpr ⟨VARIABLE_EXPAND_SINGLE, hs, by decide⟩

/-- Witness for the amended C7 theorem at the concrete quoted token. -/
theorem c7_skip_variables_rewrite_witness :
    stageVariables envNull flagsSkipVars [34, 36, 120, 34] =
      ⟨ExpandResult.ok,
        [mkComp ((unescapeSpecial [34, 36, 120, 34]).map
          (fun c => if c = VARIABLE_EXPAND then 36 else c))], []⟩ ∧
    VARIABLE_EXPAND_SINGLE ∈
      [VARIABLE_EXPAND_SINGLE, 120].map
        (fun c => if c = VARIABLE_EXPAND then 36 else c) := by
  exact ⟨c7_skip_variables_rewrite.1 envNull flagsSkipVars [34, 36, 120, 34] rfl,
    c7_skip_variables_rewrite.2 [VARIABLE_EXPAND_SINGLE, 120] (by decide)⟩

/-! ## Claim C8 -/


/-- C8 counterexample: an unclosed brace group does not always complete in
completion mode. On a doubly-unclosed group the synthesized retry drops
for_completions, so the retry reports Mismatched braces and the stage
errors even though for_completions was set. -/
theorem c8_counterexample :
    expandBraces [BRACE_BEGIN, BRACE_BEGIN, 97] flagsForCompletions =
      (ExpandResult.error, [],
        [⟨SOURCE_LOCATION_UNKNOWN, ErrCode.syntaxErr, ErrText.mismatchedBraces⟩]) := rfl

/-- C8 (amended): on an unclosed brace group, the stage without
for_completions reports Mismatched braces and errors; with for_completions
it synthesizes a closing brace keeping only the text after the last
depth-one separator and retries that string with only skip_cmdsubst set
(dropping for_completions, so a retry that is itself unclosed errors); a
singly-unclosed group thereby produces the completion of its last item. -/
theorem c8_unclosed_brace_behavior :
    (∀ (instr : List Nat) (flags : ExpandFlags),
      (braceScan instr).count > 0 → flags.forCompletions = false →
      expandBraces instr flags =
        (ExpandResult.error, [],
          [⟨SOURCE_LOCATION_UNKNOWN, ErrCode.syntaxErr, ErrText.mismatchedBraces⟩])) ∧
    (∀ (instr : List Nat) (flags : ExpandFlags) (fuel : Nat),
      (braceScan instr).count > 0 → flags.forCompletions = true →
      expandBracesF flags (fuel + 1) instr =
        expandBracesF flagsSkipCmdsubstOnly fuel (synthClosed instr (braceScan instr))) ∧
    expandBraces [BRACE_BEGIN, 97, BRACE_SEP, 98] flagsForCompletions =
      (ExpandResult.ok, [[98]], []) := by
  refine ⟨?_, ?_, rfl⟩
  · intro instr flags hcount hfc
    rw [expandBraces]
    rw [show instr.length + 3 = (instr.length + 2) + 1 from rfl]
    rw [expandBracesF]
    rw [if_neg (by simp [hfc] : ¬(((braceScan instr).count > 0 && flags.forCompletions) = true))]
    rw [if_pos (by simp [hcount] : ((braceScan instr).synErr || (braceScan instr).count > 0) = true)]
  · intro instr flags fuel hcount hfc
    rw [expandBracesF]
    rw [if_pos (by simp [hcount, hfc] :
      (((braceScan instr).count > 0 && flags.forCompletions) = true))]

/-- Witness for the amended C8 theorem at concrete unclosed groups. -/
theorem c8_unclosed_brace_behavior_witness :
    expandBraces [BRACE_BEGIN, 97] flagsNone =
      (ExpandResult.error, [],
        [⟨SOURCE_LOCATION_UNKNOWN, ErrCode.syntaxErr, ErrText.mismatchedBraces⟩]) ∧
    expandBracesF flagsForCompletions 5 [BRACE_BEGIN, 97] =
      expandBracesF flagsSkipCmdsubstOnly 4
        (synthClosed [BRACE_BEGIN, 97] (braceScan [BRACE_BEGIN, 97])) ∧
    expandBraces [BRACE_BEGIN, 97, BRACE_SEP, 98] flagsForCompletions =
      (ExpandResult.ok, [[98]], []) := by
  exact ⟨c8_unclosed_brace_behavior.1 [BRACE_BEGIN, 97] flagsNone (by decide) rfl,
    c8_unclosed_brace_behavior.2.1 [BRACE_BEGIN, 97] flagsForCompletions 4 (by decide) rfl,
    c8_unclosed_brace_behavior.2.2⟩

/-! ## Claim C9 -/

/-- C9: the driver's aggregate starts at ok; an error aborts the per-stage
loop at once; a no_match overwrites an aggregate of ok but never an
aggregate of wildcard_match, so a wildcard match from one completion is
never masked by a later no_match from another completion of the same
stage. -/
theorem c9_aggregation_invariant :
    (∀ (env : Environment) (flags : ExpandFlags) (input : List Nat),
      expandStringSlow env flags input =
        match runStages (theStages env flags) [mkComp input] ExpandResult.ok [] with
        | (t, cs, es) =>
          if t = ExpandResult.error then (t, [], es)
          else
            (t, if !flags.skipHomeDirectories then unexpandTildes env input cs else cs,
              es)) ∧
    (∀ t, aggStep t ExpandResult.error = ExpandResult.error) ∧
    (∀ (f : List Nat → ExpOut) (c : CompletionT) (cs : List CompletionT)
        (t : ExpandResult), (f c.completion).result = ExpandResult.error →
      runStage f (c :: cs) t =
        (ExpandResult.error, (f c.completion).comps, (f c.completion).errs)) ∧
    aggStep ExpandResult.ok ExpandResult.wildcardNoMatch =
      ExpandResult.wildcardNoMatch ∧
    aggStep ExpandResult.wildcardMatch ExpandResult.wildcardNoMatch =
      ExpandResult.wildcardMatch ∧
    (∀ (f : List Nat → ExpOut) (comps : List CompletionT),
      (∀ c ∈ comps, (f c.completion).result = ExpandResult.wildcardNoMatch) →
      (runStage f comps ExpandResult.wildcardMatch).1 =
        ExpandResult.wildcardMatch) := by
  have hagg : ∀ t, aggStep t ExpandResult.error = ExpandResult.error := by
    intro t
    cases t <;> rfl
  refine ⟨fun env flags input => rfl, hagg, ?_, rfl, rfl, ?_⟩
  · intro f c cs t herr
    rw [runStage, herr, hagg, if_pos rfl]
  · intro f comps
    induction comps with
    | nil => intro _; rfl
    | cons c cs ih =>
      intro h
      have hc := h c (by simp)
      rw [runStage, hc]
      rw [show aggStep ExpandResult.wildcardMatch ExpandResult.wildcardNoMatch =
        ExpandResult.wildcardMatch from rfl]
      rw [if_neg (by decide)]
      have hrec := ih (fun x hx => h x (by simp [hx]))
      rcases hrc : runStage f cs ExpandResult.wildcardMatch with ⟨tf, outs2, errs2⟩
      rw [hrc] at hrec
      simpa using hrec

/-- Witness for C9 at concrete stage functions: an erroring invocation
aborts, and a no_match sequence after a match leaves the match. -/
theorem c9_aggregation_invariant_witness :
    runStage (fun _ => ⟨ExpandResult.error, [], []⟩) [mkComp [], mkComp [97]]
      ExpandResult.ok = (ExpandResult.error, [], []) ∧
    (runStage (fun _ => ⟨ExpandResult.wildcardNoMatch, [], []⟩) [mkComp []]
      ExpandResult.wildcardMatch).1 = ExpandResult.wildcardMatch := by
  constructor
  · exact c9_aggregation_invariant.2.2.1 (fun _ => ⟨ExpandResult.error, [], []⟩)
      (mkComp []) [mkComp [97]] ExpandResult.ok rfl
  · exact c9_aggregation_invariant.2.2.2.2.2
      (fun _ => ⟨ExpandResult.wildcardNoMatch, [], []⟩) [mkComp []]
      (fun c _ => rfl)

/-! ## Claim C10 -/

/-- C10: whenever expand_one returns false, the in-out string argument is
returned exactly as passed; it is overwritten only on a true return. -/
theorem c10_expand_one_preserves_input :
    ∀ (env : Environment) (flags : ExpandFlags) (s : List Nat),
      (expandOne env flags s).1 = false → (expandOne env flags s).2 = s := by
  intro env flags s h
  rw [expandOne] at h ⊢
  by_cases hc : (!flags.forCompletions && expandIsClean s) = true
  · rw [if_pos hc] at h
    simp at h
  · rw [if_neg hc] at h ⊢
    dsimp only at h ⊢
    by_cases h2 : (decide ((expandString env { flags with noDescriptions := true } s).1 ≠
        ExpandResult.error) &&
        decide ((expandString env
          { flags with noDescriptions := true } s).2.1.length = 1)) = true
    · rw [if_pos h2] at h
      simp at h
    · rw [if_neg h2]

/-- Witness for C10: a lone dollar (empty variable name) makes the pipeline
error, so expand_one returns false and leaves the string untouched. -/
theorem c10_expand_one_preserves_input_witness :
    (expandOne envNull flagsNone [36]).1 = false ∧
    (expandOne envNull flagsNone [36]).2 = [36] := by
  refine ⟨by decide, c10_expand_one_preserves_input envNull flagsNone [36] (by decide)⟩

/-! ## Claim C4: decimal representations and the range semantics -/


lemma natDigitsF_ne_nil (f n : Nat) : natDigitsF f n ≠ [] := by
  cases f with
  | zero => simp [natDigitsF]
  | succ f =>
    rw [natDigitsF]
    by_cases h : n < 10
    · simp [h]
    · simp [h]

lemma natDigitsF_all_digits (f : Nat) :
    ∀ n, (natDigitsF f n).all isDigitW = true := by
  induction f with
  | zero =>
    intro n
    have : n % 10 < 10 := Nat.mod_lt n (by omega)
    simp only [natDigitsF, List.all_cons, List.all_nil, Bool.and_true, isDigitW,
      Bool.and_eq_true, decide_eq_true_eq]
    omega
  | succ f ih =>
    intro n
    rw [natDigitsF]
    by_cases h : n < 10
    · simp only [if_pos h, List.all_cons, List.all_nil, Bool.and_true, isDigitW,
        Bool.and_eq_true, decide_eq_true_eq]
      omega
    · rw [if_neg h, List.all_append, ih (n / 10)]
      have : n % 10 < 10 := Nat.mod_lt n (by omega)
      simp only [List.all_cons, List.all_nil, Bool.and_true, Bool.true_and, isDigitW,
        Bool.and_eq_true, decide_eq_true_eq]
      omega

lemma natDigitsF_head_pos (f : Nat) :
    ∀ n, 1 ≤ n → n ≤ f → nthc (natDigitsF f n) 0 ≠ 48 := by
  induction f with
  | zero => intro n h1 h2; omega
  | succ f ih =>
    intro n h1 h2
    rw [natDigitsF]
    by_cases h : n < 10
    · simp only [if_pos h, nthc, List.getD_cons_zero]
      omega
    · rw [if_neg h]
      have hne := natDigitsF_ne_nil f (n / 10)
      rcases hd : natDigitsF f (n / 10) with _ | ⟨d, t⟩
      · exact absurd hd hne
      · have hh := ih (n / 10) (by omega) (by omega)
        rw [hd] at hh
        simpa [nthc] using hh

lemma natDigitsF_val (f : Nat) :
    ∀ n, n ≤ f →
      (natDigitsF f n).foldl (fun acc c => acc * 10 + (c - 48)) 0 = n := by
  induction f with
  | zero =>
    intro n hn
    have : n = 0 := by omega
    subst this
    rfl
  | succ f ih =>
    intro n hn
    rw [natDigitsF]
    by_cases h : n < 10
    · simp only [if_pos h, List.foldl_cons, List.foldl_nil]
      omega
    · rw [if_neg h, List.foldl_append, ih (n / 10) (by omega)]
      simp only [List.foldl_cons, List.foldl_nil]
      omega

lemma takeWhile_all_append {P : Nat → Bool} :
    ∀ (l rest : List Nat), l.all P = true →
      (l ++ rest).takeWhile P = l ++ rest.takeWhile P := by
  intro l rest
  induction l with
  | nil => intro _; simp
  | cons c t ih =>
    intro h
    rw [List.all_cons, Bool.and_eq_true] at h
    simp only [List.cons_append, List.takeWhile_cons, h.1, ih h.2]
    simp

/-- fish_wcstol on the canonical decimal text of a long integer: parses the
whole representation and stops exactly after it. -/
lemma parseLong_intRepr (s : List Nat) (pos : Nat) (A : Int) (rest : List Nat)
    (hs : s.drop pos = intRepr A ++ rest)
    (hrest : rest.takeWhile isDigitW = [])
    (hlo : LONG_MIN ≤ A) (hhi : A ≤ LONG_MAX) :
    parseLong s pos = some (A, pos + (intRepr A).length) := by
  rw [parseLong, hs]
  by_cases hA : A < 0
  · have hd : intRepr A = 45 :: natDigits A.natAbs := by rw [intRepr, if_pos hA]
    have hall : (natDigits A.natAbs).all isDigitW = true :=
      natDigitsF_all_digits A.natAbs A.natAbs
    have hval : (natDigits A.natAbs).foldl (fun acc c => acc * 10 + (c - 48)) 0
        = A.natAbs := natDigitsF_val A.natAbs A.natAbs (Nat.le_refl _)
    have hne : (natDigits A.natAbs).isEmpty = false := by
      rcases h : natDigits A.natAbs with _ | ⟨d, t⟩
      · exact absurd h (natDigitsF_ne_nil _ _)
      · rfl
    have hAv : (-(A.natAbs : Int)) = A := by omega
    rw [hd]
    simp only [List.cons_append, List.takeWhile_cons,
      show isSpaceW 45 = false from rfl, Bool.false_eq_true, if_false,
      List.length_nil, List.drop_zero, nthc, List.getD_cons_zero,
      decide_True, Bool.true_or, if_true, List.drop_succ_cons,
      takeWhile_all_append _ _ hall, hrest, List.append_nil, hne, hval, hAv]
    rw [if_neg (by simp only [Bool.or_eq_true, decide_eq_true_eq]; omega)]
    refine congrArg some ?_
    rw [Prod.mk.injEq]
    exact ⟨rfl, by simp only [List.length_cons]; omega⟩
  · have hd : intRepr A = natDigits A.toNat := by rw [intRepr, if_neg hA]
    have hall : (natDigits A.toNat).all isDigitW = true :=
      natDigitsF_all_digits A.toNat A.toNat
    have hval : (natDigits A.toNat).foldl (fun acc c => acc * 10 + (c - 48)) 0
        = A.toNat := natDigitsF_val A.toNat A.toNat (Nat.le_refl _)
    have hAv : ((A.toNat : Int)) = A := by omega
    rcases hnd : natDigits A.toNat with _ | ⟨d, t⟩
    · exact absurd hnd (natDigitsF_ne_nil _ _)
    rw [hnd] at hall hval
    have hd48 : 48 ≤ d ∧ d ≤ 57 := by
      rw [List.all_cons, Bool.and_eq_true] at hall
      simpa [isDigitW] using hall.1
    have htw2 : List.takeWhile isDigitW (d :: (t ++ rest)) = d :: t := by
      rw [List.all_cons, Bool.and_eq_true] at hall
      rw [List.takeWhile_cons, if_pos hall.1, takeWhile_all_append _ _ hall.2,
        hrest, List.append_nil]
    rw [hd, hnd]
    simp only [List.cons_append, List.takeWhile_cons]
    rw [show isSpaceW d = false from by
      refine Bool.eq_false_iff.mpr fun hx => ?_
      simp only [isSpaceW, Bool.or_eq_true, decide_eq_true_eq] at hx
      omega]
    simp only [Bool.false_eq_true, if_false, List.length_nil, List.drop_zero,
      nthc, List.getD_cons_zero]
    rw [if_neg (show ¬((decide (d = 45) || decide (d = 43)) = true) from by
      simp only [Bool.or_eq_true, decide_eq_true_eq]
      omega)]
    simp only [List.drop_zero, htw2]
    rw [show (d :: t).isEmpty = false from rfl]
    simp only [Bool.false_eq_true, if_false, hval]
    rw [if_neg (show ¬(d = 45) from by omega)]
    simp only [hAv]
    rw [if_neg (show ¬((decide (A < LONG_MIN) || decide (LONG_MAX < A)) = true) from by
      simp only [Bool.or_eq_true, decide_eq_true_eq]
      omega)]
    refine congrArg some ?_
    rw [Prod.mk.injEq]
    exact ⟨rfl, by simp only [List.length_cons]; omega⟩
lemma nthc_drop (s : List Nat) : ∀ (p j : Nat), nthc (s.drop p) j = nthc s (p + j) := by
  induction s with
  | nil => intro p j; simp [nthc]
  | cons c t ih =>
    intro p j
    cases p with
    | zero => simp
    | succ p =>
      rw [List.drop_succ_cons, ih p j]
      rw [show p + 1 + j = (p + j) + 1 from by omega, nthc_cons_succ]

/-- The closing iteration of the slice loop: at a lone closing bracket with
the all-zero flag off, the loop returns the accumulated indices. -/
lemma sliceLoop_end (s : List Nat) (size : Int) (f p : Nat) (idx : List Int)
    (zi : Option Nat) (hd : s.drop p = [93]) :
    sliceLoop s size (f + 1) p idx zi false = Except.ok (idx, p + 1) := by
  simp only [sliceLoop]
  rw [hd]
  have h93 : nthc s (p + 0) = 93 := by
    rw [← nthc_drop, hd]
    rfl
  simp only [List.takeWhile_cons, show (isSpaceW 93 || (93 = INTERNAL_SEPARATOR : Bool))
    = false from rfl, Bool.false_eq_true, if_false, List.length_nil, Nat.add_zero]
  rw [show nthc s p = 93 from by simpa using h93]
  simp

/-! ## Claim C4 continued: the range theorem -/


lemma intRepr_head (A : Int) (hA : A ≠ 0) :
    ∃ c t, intRepr A = c :: t ∧ (c = 45 ∨ (49 ≤ c ∧ c ≤ 57)) := by
  by_cases h : A < 0
  · refine ⟨45, natDigits A.natAbs, by rw [intRepr, if_pos h], Or.inl rfl⟩
  · rw [intRepr, if_neg h]
    rcases hnd : natDigits A.toNat with _ | ⟨d, t⟩
    · exact absurd hnd (natDigitsF_ne_nil _ _)
    have hall : (natDigits A.toNat).all isDigitW = true :=
      natDigitsF_all_digits A.toNat A.toNat
    rw [hnd, List.all_cons, Bool.and_eq_true] at hall
    have hd48 : 48 ≤ d ∧ d ≤ 57 := by simpa [isDigitW] using hall.1
    have hne48 : nthc (natDigitsF A.toNat A.toNat) 0 ≠ 48 :=
      natDigitsF_head_pos A.toNat A.toNat (by omega) (Nat.le_refl _)
    rw [show natDigitsF A.toNat A.toNat = natDigits A.toNat from rfl, hnd] at hne48
    simp only [nthc, List.getD_cons_zero] at hne48
    exact ⟨d, t, rfl, Or.inr ⟨by omega, hd48.2⟩⟩

lemma intRepr_head_any (A : Int) :
    ∃ c t, intRepr A = c :: t ∧ (c = 45 ∨ (48 ≤ c ∧ c ≤ 57)) := by
  by_cases h : A < 0
  · exact ⟨45, natDigits A.natAbs, by rw [intRepr, if_pos h], Or.inl rfl⟩
  · rw [intRepr, if_neg h]
    rcases hnd : natDigits A.toNat with _ | ⟨d, t⟩
    · exact absurd hnd (natDigitsF_ne_nil _ _)
    have hall : (natDigits A.toNat).all isDigitW = true :=
      natDigitsF_all_digits A.toNat A.toNat
    rw [hnd, List.all_cons, Bool.and_eq_true] at hall
    have hd48 : 48 ≤ d ∧ d ≤ 57 := by simpa [isDigitW] using hall.1
    exact ⟨d, t, rfl, Or.inr hd48⟩

lemma claimRangeIdx_eq_code (A B : Int) (n : Nat) :
    claimRangeIdx A B n =
      (if (decide ((if A > -1 then A else (n : Int) + A + 1) > (n : Int)) &&
          decide ((if B > -1 then B else (n : Int) + B + 1) > (n : Int))) = true then []
      else
        rangeSeq
          (if decide (decide (B > -1) = decide (A > -1)) = true then
            if (if A > -1 then A else (n : Int) + A + 1) < (n : Int) then
              if A > -1 then A else (n : Int) + A + 1
            else (n : Int)
          else if A > -1 then A else (n : Int) + A + 1)
          (if decide (decide (B > -1) = decide (A > -1)) = true then
            if (if B > -1 then B else (n : Int) + B + 1) < (n : Int) then
              if B > -1 then B else (n : Int) + B + 1
            else (n : Int)
          else if B > -1 then B else (n : Int) + B + 1)
          (if (!decide (decide (B > -1) = decide (A > -1))) = true then
            if B > -1 then -1 else 1
          else if (if B > -1 then B else (n : Int) + B + 1) <
              (if A > -1 then A else (n : Int) + A + 1) then -1 else 1)) := by
  by_cases hA0 : A < 0 <;> by_cases hB0 : B < 0
  · have hA1 : ¬(A > -1) := by omega
    have hB1 : ¬(B > -1) := by omega
    simp only [claimRangeIdx, if_pos hA0, if_pos hB0, if_neg hA1, if_neg hB1,
      decide_eq_false hA1, decide_eq_false hB1, decide_eq_true hA0, decide_eq_true hB0]
    simp
  · have hA1 : ¬(A > -1) := by omega
    have hB1 : B > -1 := by omega
    simp only [claimRangeIdx, if_pos hA0, if_neg hB0, if_neg hA1, if_pos hB1,
      decide_eq_false hA1, decide_eq_true hB1, decide_eq_true hA0,
      decide_eq_false hB0]
    simp
  · have hA1 : A > -1 := by omega
    have hB1 : ¬(B > -1) := by omega
    simp only [claimRangeIdx, if_neg hA0, if_pos hB0, if_pos hA1, if_neg hB1,
      decide_eq_true hA1, decide_eq_false hB1, decide_eq_false hA0,
      decide_eq_true hB0]
    simp
  · have hA1 : A > -1 := by omega
    have hB1 : B > -1 := by omega
    simp only [claimRangeIdx, if_neg hA0, if_neg hB0, if_pos hA1, if_pos hB1,
      decide_eq_true hA1, decide_eq_true hB1, decide_eq_false hA0,
      decide_eq_false hB0]
    simp

set_option maxHeartbeats 2000000 in
lemma parseSlice_range_eval (A B : Int) (n : Nat) (hA : A ≠ 0)
    (hAlo : LONG_MIN ≤ A) (hAhi : A ≤ LONG_MAX)
    (hBlo : LONG_MIN ≤ B) (hBhi : B ≤ LONG_MAX) :
    parseSlice (91 :: (intRepr A ++ (46 :: 46 :: (intRepr B ++ [93])))) n =
      Except.ok (claimRangeIdx A B n,
        (91 :: (intRepr A ++ (46 :: 46 :: (intRepr B ++ [93])))).length) := by
  set rA := intRepr A with hrA
  set rB := intRepr B with hrB
  set s := 91 :: (rA ++ (46 :: 46 :: (rB ++ [93]))) with hsdef
  obtain ⟨cA, tA, hheadA, hcA⟩ := intRepr_head A hA
  obtain ⟨cB, tB, hheadB, hcB⟩ := intRepr_head_any B
  have hlen : s.length = rA.length + rB.length + 4 := by
    simp [hsdef]
    omega
  have hdropA : s.drop 1 = rA ++ (46 :: 46 :: (rB ++ [93])) := rfl
  have hdropDots : s.drop (1 + rA.length) = 46 :: 46 :: (rB ++ [93]) := by
    rw [hsdef, show 1 + rA.length = rA.length + 1 from by omega, List.drop_succ_cons]
    exact List.drop_left rA _
  have hdropB : s.drop (3 + rA.length) = rB ++ [93] := by
    have h2 := List.drop_drop 2 (1 + rA.length) s
    rw [hdropDots] at h2
    rw [show 3 + rA.length = 1 + rA.length + 2 from by omega]
    rw [← h2]
    rfl
  have hdropEnd : s.drop (3 + rA.length + rB.length) = [93] := by
    have h2 := List.drop_drop rB.length (3 + rA.length) s
    rw [hdropB] at h2
    rw [← h2, List.drop_left rB _]
  have hc1 : nthc s 1 = cA := by
    have h0 := nthc_drop s 1 0
    rw [hdropA, hrA, hheadA] at h0
    simpa [nthc] using h0.symm
  have hcA48 : cA ≠ 48 := by omega
  have hcA93 : cA ≠ 93 := by omega
  have hpl1 : parseLong s 1 = some (A, 1 + rA.length) :=
    parseLong_intRepr s 1 A (46 :: 46 :: (rB ++ [93])) hdropA rfl hAlo hAhi
  have hpl2 : parseLong s (3 + rA.length) = some (B, 3 + rA.length + rB.length) :=
    parseLong_intRepr s (3 + rA.length) B [93] hdropB rfl hBlo hBhi
  have hcondA : (isSpaceW cA || decide (cA = INTERNAL_SEPARATOR)) = false := by
    refine Bool.eq_false_iff.mpr fun hx => ?_
    simp only [Bool.or_eq_true, decide_eq_true_eq, isSpaceW, INTERNAL_SEPARATOR] at hx
    omega
  have htw1 : (s.drop 1).takeWhile (fun c => isSpaceW c || c = INTERNAL_SEPARATOR) = [] := by
    rw [hdropA, hrA, hheadA, List.cons_append]
    simp only [List.takeWhile_cons, hcondA, Bool.false_eq_true, if_false]
  have hcondB : (decide (cB = INTERNAL_SEPARATOR)) = false := by
    simp only [decide_eq_false_iff_not, INTERNAL_SEPARATOR]
    omega
  have hc46a : nthc s (1 + rA.length) = 46 := by
    have h0 := nthc_drop s (1 + rA.length) 0
    rw [hdropDots] at h0
    simpa [nthc] using h0.symm
  have hc46b : nthc s (1 + rA.length + 1) = 46 := by
    have h0 := nthc_drop s (1 + rA.length) 1
    rw [hdropDots] at h0
    simpa [nthc] using h0.symm
  have htwSep1 : (s.drop (1 + rA.length)).takeWhile
      (fun c => c = INTERNAL_SEPARATOR) = [] := by
    rw [hdropDots]
    rfl
  have hdropB2 : s.drop (1 + rA.length + 2) = rB ++ [93] := by
    rw [show 1 + rA.length + 2 = 3 + rA.length from by omega]
    exact hdropB
  have htwSep2 : (s.drop (1 + rA.length + 2)).takeWhile
      (fun c => c = INTERNAL_SEPARATOR) = [] := by
    rw [hdropB2, hrB, hheadB, List.cons_append]
    simp only [List.takeWhile_cons, hcondB, Bool.false_eq_true, if_false]
  have hpl2b : parseLong s (1 + rA.length + 2 +
      ((s.drop (1 + rA.length + 2)).takeWhile
        (fun c => c = INTERNAL_SEPARATOR)).length) =
      some (B, 3 + rA.length + rB.length) := by
    rw [htwSep2]
    simp only [List.length_nil, Nat.add_zero]
    rw [show 1 + rA.length + 2 = 3 + rA.length from by omega]
    exact hpl2
  rw [parseSlice, hlen]
  rw [show rA.length + rB.length + 4 + 2 = (rA.length + rB.length + 5) + 1 from by omega]
  rw [show (rA.length + rB.length + 5) + 1 = Nat.succ (rA.length + rB.length + 5) from rfl]
  rw [sliceLoop.eq_3]
  rw [htw1]
  simp only [List.length_nil, Nat.add_zero, hc1]
  rw [if_neg (show ¬(cA = 93) from hcA93)]
  simp only [Bool.true_and, show decide (cA = 48) = false from by
    simp only [decide_eq_false_iff_not]; exact hcA48,
    Bool.false_eq_true, if_false]
  rw [hpl1]
  dsimp only
  rw [htwSep1]
  simp only [List.length_nil, Nat.add_zero]
  rw [if_pos (show (decide (nthc s (1 + rA.length) = 46) &&
      decide (nthc s (1 + rA.length + 1) = 46)) = true from by
    rw [hc46a, hc46b]
    rfl)]
  rw [hpl2b]
  dsimp only
  simp only [List.nil_append]
  rw [show rA.length + rB.length + 5 = Nat.succ (rA.length + rB.length + 4) from by omega]
  have hend : ∀ (idx : List Int) (zi : Option Nat),
      sliceLoop s (↑n) (Nat.succ (rA.length + rB.length + 4))
        (3 + rA.length + rB.length) idx zi false =
        Except.ok (idx, 3 + rA.length + rB.length + 1) := fun idx zi =>
    sliceLoop_end s (↑n) (rA.length + rB.length + 4) (3 + rA.length + rB.length)
      idx zi hdropEnd
  simp only [hend]
  rw [show 3 + rA.length + rB.length + 1 = rA.length + rB.length + 4 from by omega]
  rw [claimRangeIdx_eq_code A B n]
  split_ifs <;> rfl


lemma claimRangeIdx_one_negone (n : Nat) (hn : 1 ≤ n) :
    claimRangeIdx 1 (-1) n = upSeq 1 n := by
  have h1 : ¬((1 : Int) < 0) := by decide
  have h2 : ((-1 : Int) < 0) := by decide
  have hng : decide ((1 : Int) > (n : Int)) = false := by
    simp only [decide_eq_false_iff_not]
    omega
  simp only [claimRangeIdx, if_neg h1, if_pos h2, hng, Bool.false_and,
    Bool.false_eq_true, if_false]
  rw [if_pos (show (decide ((1 : Int) < 0)) ≠ (decide ((-1 : Int) < 0)) from by decide)]
  rw [rangeSeq, if_pos rfl]
  rw [if_pos (show (1 : Int) ≤ (n : Int) + -1 + 1 from by omega)]
  rw [show ((n : Int) + -1 + 1 - 1).toNat + 1 = n from by omega]

lemma claimRangeIdx_negone_one (n : Nat) (hn : 1 ≤ n) :
    claimRangeIdx (-1) 1 n = (upSeq 0 n).map (fun k => (n : Int) - k) := by
  have h1 : ((-1 : Int) < 0) := by decide
  have h2 : ¬((1 : Int) < 0) := by decide
  have hng : decide ((n : Int) + -1 + 1 > (n : Int)) = false := by
    simp only [decide_eq_false_iff_not]
    omega
  simp only [claimRangeIdx, if_pos h1, if_neg h2, hng, Bool.false_and,
    Bool.and_false, Bool.false_eq_true, if_false]
  rw [if_pos (show (decide ((-1 : Int) < 0)) ≠ (decide ((1 : Int) < 0)) from by decide)]
  rw [rangeSeq, if_neg (show ¬((-1 : Int) = 1) from by decide)]
  rw [if_pos (show (1 : Int) ≤ (n : Int) + -1 + 1 from by omega)]
  rw [show ((n : Int) + -1 + 1 - 1).toNat + 1 = n from by omega]
  simp only [show ((n : Int) + -1 + 1) = (n : Int) from by omega]

/-- C4: parse_slice on a range a..b resolves negative endpoints as size+x+1;
when exactly one endpoint is negative the direction is forced by the sign of
the second endpoint; when both signs agree each endpoint is clamped to size
and the direction follows their order; the range is dropped only when both
resolved endpoints exceed the size. Consequently [1..-1] selects every element
of a non-empty collection in order and [-1..1] selects them in reverse. -/
theorem c4_slice_range_semantics :
    (∀ (A B : Int) (n : Nat), A ≠ 0 → LONG_MIN ≤ A → A ≤ LONG_MAX →
        LONG_MIN ≤ B → B ≤ LONG_MAX →
      parseSlice (91 :: (intRepr A ++ (46 :: 46 :: (intRepr B ++ [93])))) n =
        Except.ok (claimRangeIdx A B n,
          (91 :: (intRepr A ++ (46 :: 46 :: (intRepr B ++ [93])))).length)) ∧
    (∀ n : Nat, 1 ≤ n →
      parseSlice [91, 49, 46, 46, 45, 49, 93] n = Except.ok (upSeq 1 n, 7)) ∧
    (∀ n : Nat, 1 ≤ n →
      parseSlice [91, 45, 49, 46, 46, 49, 93] n =
        Except.ok ((upSeq 0 n).map (fun k => (n : Int) - k), 7)) := by
  refine ⟨parseSlice_range_eval, fun n hn => ?_, fun n hn => ?_⟩
  · have h := parseSlice_range_eval 1 (-1) n (by decide) (by decide) (by decide)
      (by decide) (by decide)
    rw [claimRangeIdx_one_negone n hn] at h
    exact h
  · have h := parseSlice_range_eval (-1) 1 n (by decide) (by decide) (by decide)
      (by decide) (by decide)
    rw [claimRangeIdx_negone_one n hn] at h
    exact h

/-- Witness for C4 at concrete inputs: $v[2..-1], $v[1..-1], $v[-1..1] on a
three-element collection. -/
theorem c4_slice_range_semantics_witness :
    parseSlice [91, 50, 46, 46, 45, 49, 93] 3 = Except.ok ([2, 3], 7) ∧
    parseSlice [91, 49, 46, 46, 45, 49, 93] 3 = Except.ok ([1, 2, 3], 7) ∧
    parseSlice [91, 45, 49, 46, 46, 49, 93] 3 = Except.ok ([3, 2, 1], 7) := by
  refine ⟨?_, ?_, ?_⟩
  · have h := c4_slice_range_semantics.1 2 (-1) 3 (by decide) (by decide)
      (by decide) (by decide) (by decide)
    rw [show (91 :: (intRepr 2 ++ (46 :: 46 :: (intRepr (-1) ++ [93])))) =
      [91, 50, 46, 46, 45, 49, 93] from by decide] at h
    rw [show claimRangeIdx 2 (-1) 3 = ([2, 3] : List Int) from by decide] at h
    exact h
  · have h := c4_slice_range_semantics.2.1 3 (by decide)
    rw [show upSeq 1 3 = ([1, 2, 3] : List Int) from by decide] at h
    exact h
  · have h := c4_slice_range_semantics.2.2 3 (by decide)
    rw [show (upSeq 0 3).map (fun k => ((3 : Nat) : Int) - k) =
      ([3, 2, 1] : List Int) from by decide] at h
    exact h

/-! ## Claim C1: the clean fast path versus the slow path -/

lemma c1Ok_ne {c : Nat} (h : c1Ok c = true) :
    c ≠ 36 ∧ c ≠ 42 ∧ c ≠ 63 ∧ c ≠ 92 ∧ c ≠ 34 ∧ c ≠ 39 ∧ c ≠ 40 ∧ c ≠ 41 ∧
    c ≠ 123 ∧ c ≠ 125 ∧ c ≠ 64976 ∧ c ≠ 64977 ∧ c ≠ 64978 ∧ c ≠ 64979 ∧
    c ≠ 64980 ∧ c ≠ 64981 ∧ c ≠ 64982 ∧ c ≠ 64983 ∧ c ≠ 64984 ∧ c ≠ 64985 ∧
    c ≠ 64986 ∧ c ≠ 64987 ∧ c ≠ 64988 := by
  simp only [c1Ok, UNCLEAN, sentinelChar, VARIABLE_EXPAND, VARIABLE_EXPAND_SINGLE,
    VARIABLE_EXPAND_EMPTY, BRACE_BEGIN, BRACE_END, BRACE_SEP, BRACE_SPACE,
    INTERNAL_SEPARATOR, PROCESS_EXPAND_SELF, HOME_DIRECTORY, ANY_CHAR, ANY_STRING,
    ANY_STRING_RECURSIVE, Bool.and_eq_true, Bool.not_eq_true', Bool.or_eq_false_iff,
    List.contains_cons, List.contains_nil, Bool.or_eq_false_iff,
    beq_eq_false_iff_ne, ne_eq, decide_eq_false_iff_not, decide_eq_true_eq] at h
  omega


lemma c1Ok_not_sentinel {c : Nat} (h : c1Ok c = true) : c < 64976 ∨ 64988 < c := by
  have := (c1Ok_ne h).2.2.2.2.2.2.2.2.2.2
  omega

lemma locGo_clean : ∀ (s : List Nat) (fuel pos : Nat) (accept : Bool),
    s.length < fuel → s.all c1Ok = true →
    locGo fuel s pos QuoteMode.unquoted none 0 accept = LocateRes.notFound := by
  intro s
  induction s with
  | nil =>
    intro fuel pos accept hf _
    obtain ⟨f, rfl⟩ : ∃ f, fuel = f + 1 := ⟨fuel - 1, by omega⟩
    rfl
  | cons c rest ih =>
    intro fuel pos accept hf hall
    obtain ⟨f, rfl⟩ : ∃ f, fuel = f + 1 := ⟨fuel - 1, by omega⟩
    rw [List.all_cons, Bool.and_eq_true] at hall
    obtain ⟨_, _, _, h92, h34, h39, h40, h41, -⟩ := c1Ok_ne hall.1
    simp only [locGo, if_neg h92, if_neg h39, if_neg h34, if_neg h40, if_neg h41]
    exact ih f (pos + 1) accept (by simpa using hf) hall.2

lemma locateCmdsubst_clean (s : List Nat) (accept : Bool) (hall : s.all c1Ok = true) :
    locateCmdsubst s accept = LocateRes.notFound :=
  locGo_clean s (s.length + 1) 0 accept (Nat.lt_succ_self _) hall

lemma expandCmdsubst_clean (env : Environment) (s : List Nat)
    (hall : s.all c1Ok = true) :
    expandCmdsubst env s = (true, [s], []) := by
  rw [expandCmdsubst, expandCmdsubstF, locateCmdsubst_clean s false hall]

lemma unescStep_clean (c : Nat) (rest : List Nat) (pos : Nat)
    (hc : c1Ok c = true) (hpos : 1 ≤ pos) :
    unescStep c rest pos QuoteMode.unquoted 0 = ([c], 1, QuoteMode.unquoted, 0) := by
  obtain ⟨h36, h42, h63, h92, h34, h39, -⟩ := c1Ok_ne hc
  have h123 : c ≠ 123 := (c1Ok_ne hc).2.2.2.2.2.2.2.2.1
  have h125 : c ≠ 125 := (c1Ok_ne hc).2.2.2.2.2.2.2.2.2.1
  have hp0 : ¬(pos = 0) := by omega
  simp only [unescStep, if_neg h92, if_neg h39, if_neg h34, if_neg h36, if_neg h42,
    if_neg h63, if_neg h123, if_neg h125, gt_iff_lt, Nat.lt_irrefl, decide_False,
    Bool.and_false, Bool.false_eq_true, if_false, decide_eq_false hp0,
    Bool.false_and]

lemma unescGo_clean : ∀ (s : List Nat) (fuel pos : Nat), s.length < fuel →
    s.all c1Ok = true → 1 ≤ pos →
    unescGo fuel s pos QuoteMode.unquoted 0 = s := by
  intro s
  induction s with
  | nil =>
    intro fuel pos hf _ _
    obtain ⟨f, rfl⟩ : ∃ f, fuel = f + 1 := ⟨fuel - 1, by omega⟩
    rfl
  | cons c rest ih =>
    intro fuel pos hf hall hpos
    obtain ⟨f, rfl⟩ : ∃ f, fuel = f + 1 := ⟨fuel - 1, by omega⟩
    rw [List.all_cons, Bool.and_eq_true] at hall
    rw [unescGo, unescStep_clean c rest pos hall.1 hpos]
    simp only [List.drop_zero, List.singleton_append, Nat.sub_self]
    rw [ih f (pos + 1) (by simpa using hf) hall.2 (by omega)]

lemma unescStep_clean_head (c : Nat) (rest : List Nat)
    (hc : c1Ok c = true) (h126 : c ≠ 126) (h37 : c ≠ 37) :
    unescStep c rest 0 QuoteMode.unquoted 0 = ([c], 1, QuoteMode.unquoted, 0) := by
  obtain ⟨h36, h42, h63, h92, h34, h39, -⟩ := c1Ok_ne hc
  have h123 : c ≠ 123 := (c1Ok_ne hc).2.2.2.2.2.2.2.2.1
  have h125 : c ≠ 125 := (c1Ok_ne hc).2.2.2.2.2.2.2.2.2.1
  simp only [unescStep, if_neg h92, if_neg h39, if_neg h34, if_neg h36, if_neg h42,
    if_neg h63, if_neg h123, if_neg h125, gt_iff_lt, Nat.lt_irrefl, decide_False,
    Bool.and_false, Bool.false_eq_true, if_false, decide_eq_false h126,
    decide_eq_false h37, Bool.false_and]

lemma clean_head {c : Nat} {rest : List Nat}
    (h : expandIsClean (c :: rest) = true) : c ≠ 126 ∧ c ≠ 37 := by
  simp only [expandIsClean, UNCLEAN_FIRST, Bool.and_eq_true, Bool.not_eq_true',
    List.contains_cons, List.contains_nil, Bool.or_eq_false_iff,
    beq_eq_false_iff_ne, ne_eq] at h
  exact ⟨h.1.1, h.1.2.1⟩

lemma clean_all (s : List Nat) (h : expandIsClean s = true) :
    s.all (fun c => !UNCLEAN.contains c) = true := by
  cases s with
  | nil => rfl
  | cons c rest =>
    simp only [expandIsClean, Bool.and_eq_true] at h
    exact h.2

lemma c1Ok_of (s : List Nat) (h1 : expandIsClean s = true)
    (h2 : noSentinels s = true) : s.all c1Ok = true := by
  have h1' := clean_all s h1
  rw [noSentinels, List.all_eq_true] at h2
  rw [List.all_eq_true] at h1' ⊢
  intro a ha
  rw [c1Ok, Bool.and_eq_true]
  exact ⟨h1' a ha, h2 a ha⟩

lemma unescapeSpecial_clean (s : List Nat) (hclean : expandIsClean s = true)
    (hsent : noSentinels s = true) : unescapeSpecial s = s := by
  have hall := c1Ok_of s hclean hsent
  cases s with
  | nil => rfl
  | cons c rest =>
    obtain ⟨h126, h37⟩ := clean_head hclean
    rw [List.all_cons, Bool.and_eq_true] at hall
    rw [unescapeSpecial, List.length_cons, unescGo,
      unescStep_clean_head c rest hall.1 h126 h37]
    simp only [List.drop_zero, List.singleton_append, Nat.sub_self]
    rw [unescGo_clean rest (rest.length + 1) 1 (Nat.lt_succ_self _) hall.2 (by omega)]

lemma expandVariables_clean (env : Environment) (s : List Nat)
    (hall : s.all c1Ok = true) :
    expandVariables env s = (true, [s], []) := by
  rw [expandVariables, expandVarsF]
  by_cases h0 : s.length = 0
  · rw [if_pos h0]
  · rw [if_neg h0]
    rw [findVarexp_none s s.length (fun j hj => by
      have := nthc_all (P := c1Ok) (by decide) s j hall
      have hb := c1Ok_not_sentinel this
      rw [notVarMarker, VARIABLE_EXPAND, VARIABLE_EXPAND_SINGLE, Bool.and_eq_true,
        Bool.not_eq_true', Bool.not_eq_true', decide_eq_false_iff_not,
        decide_eq_false_iff_not]
      omega)]

lemma braceScanGo_clean : ∀ (s : List Nat) (pos : Nat) (st : BraceScanSt),
    s.all c1Ok = true → braceScanGo s pos st = st := by
  intro s
  induction s with
  | nil => intro pos st _; rfl
  | cons c rest ih =>
    intro pos st hall
    rw [List.all_cons, Bool.and_eq_true] at hall
    have hb := c1Ok_not_sentinel hall.1
    have hBB : ¬(c = BRACE_BEGIN) := by rw [BRACE_BEGIN]; omega
    have hBE : ¬(c = BRACE_END) := by rw [BRACE_END]; omega
    have hBS : ¬(c = BRACE_SEP) := by rw [BRACE_SEP]; omega
    rw [braceScanGo]
    by_cases hse : st.synErr
    · rw [if_pos hse]
    · rw [if_neg hse, if_neg hBB, if_neg hBE, if_neg hBS]
      exact ih (pos + 1) st hall.2

lemma expandBraces_clean (s : List Nat) (flags : ExpandFlags)
    (hall : s.all c1Ok = true) :
    expandBraces s flags = (ExpandResult.ok, [s], []) := by
  rw [expandBraces, show s.length + 3 = (s.length + 2) + 1 from rfl, expandBracesF]
  rw [show braceScan s = ⟨0, none, none, none, false⟩ from
    braceScanGo_clean s 0 _ hall]
  rfl

lemma expandHomeDirectory_clean (env : Environment) (s : List Nat)
    (hall : s.all c1Ok = true) : expandHomeDirectory env s = s := by
  have hh : nthc s 0 ≠ HOME_DIRECTORY := by
    have := nthc_all (P := fun c => c1Ok c || decide (c = 0)) (by decide) s 0
      (by rw [List.all_eq_true] at hall ⊢; intro a ha; simp [hall a ha])
    rw [Bool.or_eq_true] at this
    rcases this with h | h
    · have hb := c1Ok_not_sentinel h
      rw [HOME_DIRECTORY]; omega
    · simp only [decide_eq_true_eq] at h
      rw [h, HOME_DIRECTORY]; omega
  rw [expandHomeDirectory, if_neg]
  simp [hh]

lemma expandPercentSelf_clean (env : Environment) (s : List Nat)
    (hall : s.all c1Ok = true) : expandPercentSelf env s = s := by
  have hh : nthc s 0 ≠ PROCESS_EXPAND_SELF := by
    have := nthc_all (P := fun c => c1Ok c || decide (c = 0)) (by decide) s 0
      (by rw [List.all_eq_true] at hall ⊢; intro a ha; simp [hall a ha])
    rw [Bool.or_eq_true] at this
    rcases this with h | h
    · have hb := c1Ok_not_sentinel h
      rw [PROCESS_EXPAND_SELF]; omega
    · simp only [decide_eq_true_eq] at h
      rw [h, PROCESS_EXPAND_SELF]; omega
  rw [expandPercentSelf, if_neg]
  simp [hh]

lemma removeInternalSeparator_clean (s : List Nat) (conv : Bool)
    (hall : s.all c1Ok = true) : removeInternalSeparator s conv = s := by
  rw [List.all_eq_true] at hall
  have hfil : s.filter (fun c => decide (c ≠ INTERNAL_SEPARATOR)) = s := by
    rw [List.filter_eq_self]
    intro a ha
    have hb := c1Ok_not_sentinel (hall a ha)
    simp only [INTERNAL_SEPARATOR, ne_eq, decide_eq_true_eq]
    omega
  rw [removeInternalSeparator]
  simp only [hfil]
  cases conv with
  | false => rfl
  | true =>
    simp only [if_true]
    rw [show (s.map (fun c =>
        if c = ANY_CHAR then 63
        else if c = ANY_STRING || c = ANY_STRING_RECURSIVE then 42 else c)) = s.map id from
      List.map_congr_left (fun a ha => by
        have hb := c1Ok_not_sentinel (hall a ha)
        rw [if_neg (by rw [ANY_CHAR]; omega),
          if_neg (by
            simp only [ANY_STRING, ANY_STRING_RECURSIVE, Bool.or_eq_true,
              decide_eq_true_eq, not_or]
            omega)]
        rfl)]
    exact List.map_id s

lemma wildcardHas_clean (s : List Nat) (hall : s.all c1Ok = true) :
    wildcardHas s = false := by
  rw [List.all_eq_true] at hall
  rw [wildcardHas, List.any_eq_false]
  intro a ha
  have hb := c1Ok_not_sentinel (hall a ha)
  simp only [ANY_CHAR, ANY_STRING, ANY_STRING_RECURSIVE, Bool.or_eq_true,
    decide_eq_true_eq, not_or]
  omega

lemma stageCmdsubst_clean (env : Environment) (flags : ExpandFlags) (s : List Nat)
    (hall : s.all c1Ok = true) :
    stageCmdsubst env flags s = ⟨ExpandResult.ok, [mkComp s], []⟩ := by
  rw [stageCmdsubst]
  by_cases hskip : flags.skipCmdsubst
  · rw [if_pos hskip, locateCmdsubst_clean s true hall]
  · rw [if_neg hskip, expandCmdsubst_clean env s hall]
    rfl

lemma stageVariables_clean (env : Environment) (flags : ExpandFlags) (s : List Nat)
    (hclean : expandIsClean s = true) (hsent : noSentinels s = true) :
    stageVariables env flags s = ⟨ExpandResult.ok, [mkComp s], []⟩ := by
  have hall := c1Ok_of s hclean hsent
  rw [stageVariables]
  simp only [unescapeSpecial_clean s hclean hsent]
  by_cases hskip : flags.skipVariables
  · rw [if_pos hskip]
    rw [show (s.map (fun c => if c = VARIABLE_EXPAND then 36 else c)) = s.map id from
      List.map_congr_left (fun a ha => by
        rw [List.all_eq_true] at hall
        have hb := c1Ok_not_sentinel (hall a ha)
        rw [if_neg (by rw [VARIABLE_EXPAND]; omega)]
        rfl)]
    rw [List.map_id]
  · rw [if_neg hskip, expandVariables_clean env s hall]
    rfl

lemma stageBraces_clean (flags : ExpandFlags) (s : List Nat)
    (hall : s.all c1Ok = true) :
    stageBraces flags s = ⟨ExpandResult.ok, [mkComp s], []⟩ := by
  rw [stageBraces, expandBraces_clean s flags hall]
  rfl

lemma stageHomeAndSelf_clean (env : Environment) (flags : ExpandFlags) (s : List Nat)
    (hall : s.all c1Ok = true) :
    stageHomeAndSelf env flags s = ⟨ExpandResult.ok, [mkComp s], []⟩ := by
  rw [stageHomeAndSelf]
  by_cases hskip : flags.skipHomeDirectories
  · simp only [hskip, Bool.not_true, Bool.false_eq_true, if_false,
      expandPercentSelf_clean env s hall]
  · simp only [hskip, Bool.not_false, if_true, expandHomeDirectory_clean env s hall,
      expandPercentSelf_clean env s hall]

lemma stageWildcards_clean (env : Environment) (flags : ExpandFlags) (s : List Nat)
    (hfc : flags.forCompletions = false) (hall : s.all c1Ok = true) :
    stageWildcards env flags s = ⟨ExpandResult.ok, [mkComp s], []⟩ := by
  rw [stageWildcards]
  simp only [removeInternalSeparator_clean s flags.skipWildcards hall,
    wildcardHas_clean s hall, hfc, Bool.false_and, Bool.and_false, Bool.false_or,
    Bool.or_false, Bool.false_eq_true, if_false, Bool.not_false, if_true]

lemma runStage_one (f : List Nat → ExpOut) (c : CompletionT) (u : List Nat)
    (hf : f c.completion = ⟨ExpandResult.ok, [mkComp u], []⟩) :
    runStage f [c] ExpandResult.ok = (ExpandResult.ok, [mkComp u], []) := by
  rw [runStage]
  simp only [hf]
  rfl

lemma unexpandTildes_clean (env : Environment) (s : List Nat)
    (comps : List CompletionT) (hh : s = [] ∨ nthc s 0 ≠ 126) :
    unexpandTildes env s comps = comps := by
  rw [unexpandTildes, if_pos]
  rcases hh with h | h
  · simp [h]
  · simp [h]

lemma expandStringSlow_clean (env : Environment) (flags : ExpandFlags) (s : List Nat)
    (hfc : flags.forCompletions = false)
    (hclean : expandIsClean s = true) (hsent : noSentinels s = true) :
    expandStringSlow env flags s = (ExpandResult.ok, [mkComp s], []) := by
  have hall := c1Ok_of s hclean hsent
  have hcomp : (mkComp s).completion = s := rfl
  have h1 := stageCmdsubst_clean env flags s hall
  have h2 := stageVariables_clean env flags s hclean hsent
  have h3 := stageBraces_clean flags s hall
  have h4 := stageHomeAndSelf_clean env flags s hall
  have h5 := stageWildcards_clean env flags s hfc hall
  have hrun : runStages (theStages env flags) [mkComp s] ExpandResult.ok [] =
      (ExpandResult.ok, [mkComp s], []) := by
    rw [theStages]
    rw [runStages, runStage_one _ _ s (by rw [hcomp]; exact h1)]
    simp only [List.nil_append, if_neg (show ExpandResult.ok ≠ ExpandResult.error from by decide)]
    rw [runStages, runStage_one _ _ s (by rw [hcomp]; exact h2)]
    simp only [List.nil_append, if_neg (show ExpandResult.ok ≠ ExpandResult.error from by decide)]
    rw [runStages, runStage_one _ _ s (by rw [hcomp]; exact h3)]
    simp only [List.nil_append, if_neg (show ExpandResult.ok ≠ ExpandResult.error from by decide)]
    rw [runStages, runStage_one _ _ s (by rw [hcomp]; exact h4)]
    simp only [List.nil_append, if_neg (show ExpandResult.ok ≠ ExpandResult.error from by decide)]
    rw [runStages, runStage_one _ _ s (by rw [hcomp]; exact h5)]
    simp only [List.nil_append, if_neg (show ExpandResult.ok ≠ ExpandResult.error from by decide)]
    rw [runStages]
  rw [expandStringSlow, hrun]
  simp only [if_neg (show ExpandResult.ok ≠ ExpandResult.error from by decide)]
  have hut : unexpandTildes env s [mkComp s] = [mkComp s] := by
    apply unexpandTildes_clean
    cases s with
    | nil => exact Or.inl rfl
    | cons c rest =>
      refine Or.inr ?_
      have := (clean_head hclean).1
      simpa [nthc] using this
  rw [hut, ite_self]

/-- C1 counterexample: the fast path and the slow path disagree on a clean
input. The input consisting of the INTERNAL_SEPARATOR code point is clean
(it is none of the unclean characters), so the fast path emits it unchanged;
but the slow path's wildcard stage strips INTERNAL_SEPARATOR characters, so
the staged pipeline emits the empty completion instead. -/
theorem c1_counterexample :
    expandIsClean [INTERNAL_SEPARATOR] = true ∧
    flagsNone.forCompletions = false ∧
    expandString envNull flagsNone [INTERNAL_SEPARATOR] =
      (ExpandResult.ok, [mkComp [INTERNAL_SEPARATOR]], []) ∧
    expandStringSlow envNull flagsNone [INTERNAL_SEPARATOR] =
      (ExpandResult.ok, [mkComp []], []) ∧
    mkComp [] ≠ mkComp [INTERNAL_SEPARATOR] := by
  decide

/-- C1 (amended): for every clean input that moreover contains none of the
reserved in-band sentinel code points, and every flag set without
for_completions, expand_string returns ok with the input as the single
completion, and the five-stage slow path produces the same output. -/
theorem c1_fast_slow_agree (env : Environment) (flags : ExpandFlags) (s : List Nat)
    (hfc : flags.forCompletions = false)
    (hclean : expandIsClean s = true) (hsent : noSentinels s = true) :
    expandString env flags s = (ExpandResult.ok, [mkComp s], []) ∧
    expandStringSlow env flags s = (ExpandResult.ok, [mkComp s], []) := by
  refine ⟨?_, expandStringSlow_clean env flags s hfc hclean hsent⟩
  rw [expandString, if_pos]
  rw [hfc, hclean]
  rfl

/-- Witness for C1 at a concrete input: the two-character word hi through a
null environment with empty flags, on both paths. -/
theorem c1_fast_slow_agree_witness :
    expandString envNull flagsNone [104, 105] =
      (ExpandResult.ok, [mkComp [104, 105]], []) ∧
    expandStringSlow envNull flagsNone [104, 105] =
      (ExpandResult.ok, [mkComp [104, 105]], []) :=
  c1_fast_slow_agree envNull flagsNone [104, 105] rfl (by decide) (by decide)

end FishExpand
